import Mathlib

/-!
Shallow embedding of the `serialcommander` repository (nMigen synchronous
hardware): the UART transceiver (`uart.py`), the command dispatcher
(`commander.py`), and the command-handler tasks (`printer.py`, `toggler.py`,
`trigger.py`).

Modelling conventions:
* One synchronous tick = one application of a step function.  All `m.d.sync`
  assignments of a module are gathered into a step function from the current
  state and the current-tick inputs to the next state; `m.d.comb` outputs are
  functions of the current state (with the nMigen default value when a branch
  leaves a combinational signal undriven).
* Signals are `Nat` (shift registers, counters, bytes) or `Bool` (flags).
  Bit `i` of a register is `Nat.testBit`.  `Cat(s[1:], b)` on a `w`-bit
  register is `s / 2 + (if b then 2^(w-1) else 0)`.
* Widths: the UART is parametric in `N` (`data_bits`); `tx_shreg` has
  `N + 2` bits, `rx_shreg` has `N + 3` bits, exactly as in the source.
-/

namespace SerialCommander

/-- Transmit half of `UART.elaborate` (uart.py lines 33-54): phase countdown,
shift register and remaining-bit count. -/
structure TxState where
  txPhase : Nat
  txShreg : Nat
  txCount : Nat
  deriving Repr, DecidableEq

/-- Receive half of `UART.elaborate` (uart.py lines 56-85).  `rxRdy` and
`rxOvf` are sync-driven outputs and hence part of the state. -/
structure RxState where
  rxPhase : Nat
  rxShreg : Nat
  rxCount : Nat
  rxRdy : Bool
  rxOvf : Bool
  deriving Repr, DecidableEq

/-- One tick of the transmit state machine (uart.py lines 38-54).
`txData` is the `tx_data` port (an `N`-bit signal) and `txRdy` the `tx_rdy`
port.  Loading builds `Cat(C(0,1), tx_data, C(1,1))`, i.e. start bit 0 in
bit 0, the data LSB-first in bits `1..N`, stop bit 1 in bit `N+1`. -/
def txStep (d N : Nat) (s : TxState) (txData : Nat) (txRdy : Bool) : TxState :=
  if s.txCount = 0 then
    if txRdy then
      { txPhase := d - 1, txShreg := txData * 2 + 2 ^ (N + 1), txCount := N + 2 }
    else s
  else
    if s.txPhase ≠ 0 then
      { s with txPhase := s.txPhase - 1 }
    else
      { txPhase := d - 1, txShreg := s.txShreg / 2 + 2 ^ (N + 1), txCount := s.txCount - 1 }

/-- One tick of the receive state machine (uart.py lines 61-85).  `rxI` is the
`rx_i` line sample at this tick, `rxAck` the consumer acknowledge. -/
def rxStep (d N : Nat) (s : RxState) (rxI rxAck : Bool) : RxState :=
  if s.rxCount = 0 then
    if rxI = false then
      if rxAck || !s.rxRdy then
        { s with rxRdy := false, rxOvf := false, rxCount := N + 3, rxPhase := d / 2 }
      else
        { s with rxOvf := true, rxRdy := if rxAck then false else s.rxRdy }
    else
      if rxAck then { s with rxRdy := false } else s
  else
    if s.rxPhase ≠ 0 then
      { s with rxPhase := s.rxPhase - 1 }
    else
      { s with rxShreg := s.rxShreg / 2 + (if rxI then 2 ^ (N + 2) else 0),
               rxCount := s.rxCount - 1, rxPhase := d - 1,
               rxRdy := if s.rxCount = 1 then true else s.rxRdy }

/-- Combinational `tx_o` output: bit 0 of the transmit shift register. -/
def txO (s : TxState) : Bool := s.txShreg.testBit 0

/-- Combinational `tx_ack` output: asserted exactly while `tx_count == 0`. -/
def txAckOut (s : TxState) : Bool := s.txCount = 0

/-- Combinational `rx_data` output: `rx_shreg[1:-1]` truncated to the `N`-bit
`rx_data` signal. -/
def rxDataOut (N : Nat) (s : RxState) : Nat := s.rxShreg / 2 % 2 ^ N

/-- Combinational `rx_err` output: driven as `~(~rx_shreg[0] & rx_shreg[-1])`
while `rx_count == 0`, and left at its nMigen default 0 otherwise
(uart.py lines 61-62). -/
def rxErrOut (N : Nat) (s : RxState) : Bool :=
  if s.rxCount = 0 then !(!s.rxShreg.testBit 0 && s.rxShreg.testBit (N + 2)) else false

/-- Reset value of the transmit half: `tx_shreg` resets to all ones. -/
def resetTx (N : Nat) : TxState := { txPhase := 0, txShreg := 2 ^ (N + 2) - 1, txCount := 0 }

/-- Reset value of the receive half: `rx_shreg` resets to all ones. -/
def resetRx (N : Nat) : RxState :=
  { rxPhase := 0, rxShreg := 2 ^ (N + 3) - 1, rxCount := 0, rxRdy := false, rxOvf := false }

/-- Full UART state: the independent transmit and receive halves. -/
structure UartState where
  tx : TxState
  rx : RxState
  deriving Repr, DecidableEq

/-- One tick of the whole UART. -/
def uartStep (d N : Nat) (s : UartState) (txData : Nat) (txRdy rxI rxAck : Bool) : UartState :=
  { tx := txStep d N s.tx txData txRdy, rx := rxStep d N s.rx rxI rxAck }

/-- Reset state of the whole UART. -/
def resetUart (N : Nat) : UartState := { tx := resetTx N, rx := resetRx N }

/-- Two 8-data-bit UARTs with the same divisor `d`, cross-wired
(`A.rx_i = B.tx_o`, `B.rx_i = A.tx_o`, combinational, as in
`test_uart_loopback`).  At tick 0 both are in reset; UART `A` is given
`tx_data = byte` with `tx_rdy` strobed for exactly the first tick and the
link is otherwise idle (`rx_ack` never raised, `tx_rdy` low afterwards).
`roundTrip d byte n` is the pair of states at tick `n`. -/
def roundTrip (d byte : Nat) : Nat → UartState × UartState
  | 0 => (resetUart 8, resetUart 8)
  | n + 1 =>
      let p := roundTrip d byte n
      (uartStep d 8 p.1 byte (decide (n = 0)) (txO p.2.tx) false,
       uartStep d 8 p.2 0 false (txO p.1.tx) false)

end SerialCommander

namespace SerialCommander

/-- The idle-line transmit frame bit pattern loaded for `byte`:
start bit 0, data LSB-first, stop bit 1 (a `(N+2)`-bit word, here `N = 8`). -/
def txFrame (byte : Nat) : Nat := byte * 2 + 2 ^ 9

/-- Receiver state after feeding the concrete line levels `w` tick by tick
(`rx_ack` held low throughout), starting from `s`. -/
def rxFeed (d N : Nat) (s : RxState) : List Bool → RxState
  | [] => s
  | b :: rest => rxFeed d N (rxStep d N s b false) rest

/-- A malformed frame on the line at divisor 4: start bit low, the eight
data bits of `0x55` LSB-first, the STOP BIT HELD LOW for its whole bit
time, then the line released high.  The receiver arms on the first low
tick and samples each 4-tick period once, so its 11 samples read: start
low, the data bits, stop low, trailing high. -/
def rxBadStopWave : List Bool :=
  List.replicate 4 false
    ++ List.replicate 4 true ++ List.replicate 4 false
    ++ List.replicate 4 true ++ List.replicate 4 false
    ++ List.replicate 4 true ++ List.replicate 4 false
    ++ List.replicate 4 true ++ List.replicate 4 false
    ++ List.replicate 4 false
    ++ List.replicate 4 true

/-- The receiver's state after the complete `rxBadStopWave` reception. -/
def rxBadStopFinal : RxState := rxFeed 4 8 (resetRx 8) rxBadStopWave

/-- Transmitter A's state at tick `n` of the `roundTrip` scenario. -/
def atx (d byte n : Nat) : TxState := (roundTrip d byte n).1.tx

/-- Receiver B's state at tick `n` of the `roundTrip` scenario. -/
def brx (d byte n : Nat) : RxState := (roundTrip d byte n).2.rx

/-- One idle tick of A's transmitter after the strobe (`tx_rdy` low). -/
def txIdle (d byte : Nat) (s : TxState) : TxState := txStep d 8 s byte false

/-- One shift of the 10-bit transmit register: shift right, stop-level 1 in
at the top. -/
def txShift (s : Nat) : Nat := s / 2 + 2 ^ 9

/-- The level of A's `tx_o` line at tick `1 + n` of the scenario: bit `n / d`
of the frame while the frame is shifting out, idle-high afterwards. -/
def txWave (d byte n : Nat) : Bool :=
  if n < 10 * d then (txFrame byte).testBit (n / d) else true

/-- The `j`-th line sample the receiver takes (start bit, the data bits
LSB-first, the stop bit, then one trailing idle sample). -/
def rxSample (byte j : Nat) : Bool :=
  if j < 10 then (txFrame byte).testBit j else true

/-- Receiver B's 11-bit shift register after its first `j` samples. -/
def rxAccum (byte : Nat) : Nat → Nat
  | 0 => 2 ^ 11 - 1
  | j + 1 => rxAccum byte j / 2 + (if rxSample byte j then 2 ^ 10 else 0)

/-- The per-tick outputs a registered command task drives (the `CommandTask`
ports of task.py that the Commander reads): `tx_data`, `tx_rdy`, `done`. -/
structure TaskPorts where
  tx_data : Nat
  tx_rdy : Bool
  done : Bool
  deriving Repr, DecidableEq

/-- Result of the Commander's combinational multiplexer (commander.py lines
31-51): what is driven onto the UART's transmit ports, the observed
`activeDone`, and the `start` / `tx_ack` lines delivered to each task
(listed in registration order, so list position `i - 1` is command index
`i`). -/
structure MuxOut where
  uart_tx_data : Nat
  uart_tx_rdy : Bool
  activeDone : Bool
  starts : List Bool
  acks : List Bool
  deriving Repr, DecidableEq

/-- Placeholder port values of a task that is not wired through. -/
def noTask : TaskPorts := { tx_data := 0, tx_rdy := false, done := false }

/-- The Commander's combinational `Switch(activeCommand)` (commander.py lines
31-51).  Case `0` forces the UART transmit ports and `activeDone` to zero;
case `i` (for `1 ≤ i ≤ len(commands)`) wires task `i`'s ports through.  A
task's `start` and `tx_ack` are combinationally driven only in its own case,
so they take the nMigen default 0 in every other case (the discarded
`submod.start.eq(0)` statements in case 0 have no effect, which coincides
with that default). -/
def commanderMux (tasks : List TaskPorts) (active : Nat) (activeStart uartTxAck : Bool) :
    MuxOut :=
  if 1 ≤ active ∧ active ≤ tasks.length then
    let tk := tasks.getD (active - 1) noTask
    { uart_tx_data := tk.tx_data, uart_tx_rdy := tk.tx_rdy, activeDone := tk.done,
      starts := (List.range tasks.length).map fun j => decide (j = active - 1) && activeStart,
      acks := (List.range tasks.length).map fun j => decide (j = active - 1) && uartTxAck }
  else
    { uart_tx_data := 0, uart_tx_rdy := false, activeDone := false,
      starts := List.replicate tasks.length false,
      acks := List.replicate tasks.length false }

/-- The four dispatcher FSM states (commander.py lines 53-80). -/
inductive CmdFsm where
  | WAIT_MESSAGE | READ_CHAR | RUN_TASK_START | RUN_TASK_WAIT
  deriving Repr, DecidableEq

/-- Sync-driven state of the Commander: FSM state, `activeCommand`,
`activeStart`, the `done_last` edge-detector register, and the registered
`uart.rx_ack` output. -/
structure CmdState where
  fsm : CmdFsm
  activeCommand : Nat
  activeStart : Bool
  done_last : Bool
  rx_ack : Bool
  deriving Repr, DecidableEq

/-- The command-table lookup performed by the `Switch(self.uart.rx_data)` in
`READ_CHAR` (commander.py lines 61-67): the keys in registration order get
dense 1-based indices; the first matching key wins; no match gives `none`. -/
def lookupIdx (letters : List Nat) (b : Nat) : Option Nat :=
  match letters with
  | [] => none
  | k :: rest => if k = b then some 1 else (lookupIdx rest b).map (· + 1)

/-- One tick of the Commander FSM (commander.py lines 53-80).  `letters` is
the command table's key bytes in registration order (`ord(k)`), so a match at
list position `j` selects command index `j + 1`.  `rxRdy`/`rxData` come from
the UART, `activeDone` from the multiplexer. -/
def commanderStep (letters : List Nat) (s : CmdState) (rxRdy : Bool) (rxData : Nat)
    (activeDone : Bool) : CmdState :=
  match s.fsm with
  | CmdFsm.WAIT_MESSAGE =>
      { s with rx_ack := false,
               fsm := if rxRdy then CmdFsm.READ_CHAR else CmdFsm.WAIT_MESSAGE }
  | CmdFsm.READ_CHAR =>
      match lookupIdx letters rxData with
      | some i => { s with rx_ack := true, activeCommand := i, fsm := CmdFsm.RUN_TASK_START }
      | none => { s with rx_ack := true, fsm := CmdFsm.WAIT_MESSAGE }
  | CmdFsm.RUN_TASK_START =>
      { s with rx_ack := false, activeStart := true, fsm := CmdFsm.RUN_TASK_WAIT }
  | CmdFsm.RUN_TASK_WAIT =>
      if activeDone && !s.done_last then
        { s with activeStart := false, done_last := activeDone,
                 activeCommand := 0, fsm := CmdFsm.WAIT_MESSAGE }
      else
        { s with activeStart := false, done_last := activeDone }

/-!
Task handlers.  Each printer is closed against an abstract byte consumer
standing in for the UART transmit side as the task observes it: `tx_ack` is
high exactly while the consumer is idle (`cons = 0`, mirroring
`tx_count == 0` in `txStep`); when the consumer is idle and the task holds
`tx_rdy`, it latches `tx_data` — that latch is the emission of one byte, as
in `txStep`'s load — and goes busy (ack low) for two ticks before idling
again.  This keeps every handshake edge the task waits on while abstracting
the `10 · divisor`-tick byte time.
-/

/-- Consumer busy-countdown: latch on idle-and-ready, then count down. -/
def ackStep (cons : Nat) (rdy : Bool) : Nat :=
  if cons = 0 then (if rdy then 2 else 0) else cons - 1

/-- The `tx_ack` level the task sees from the consumer. -/
def consAck (cons : Nat) : Bool := cons = 0

/-- The byte latched at an emission tick, if any: the consumer is idle and
the task's `tx_rdy` is high. -/
def emitNow (cons : Nat) (rdy : Bool) (b : Nat) : List Nat :=
  if cons = 0 ∧ rdy = true then [b] else []

/-- FSM states of `BinarySignalPrinter` (printer.py lines 94-132). -/
inductive BinFsm where
  | IDLE | SEND | WAIT_ACK_DOWN | WAIT_ACK_UP
  deriving Repr, DecidableEq

/-- Sync-driven state of `BinarySignalPrinter` (printer.py lines 74-134). -/
structure BinPr where
  fsm : BinFsm
  snapshot : Nat
  digit : Nat
  char : Nat
  tx_rdy : Bool
  done : Bool
  start_last : Bool
  deriving Repr, DecidableEq

/-- Combinational `tx_data` of the binary printer: the `char` register. -/
def binTxData (s : BinPr) : Nat := s.char

/-- One tick of `BinarySignalPrinter` with `W = len(signal)` digits; `sig` is
the current value of the printed signal, `start`/`ack` the task ports. -/
def binStep (W : Nat) (s : BinPr) (sig : Nat) (start ack : Bool) : BinPr :=
  let s' := { s with start_last := start }
  match s.fsm with
  | BinFsm.IDLE =>
      if start && !s.start_last then
        { s' with done := false, snapshot := sig % 2 ^ W, digit := 0, char := 48,
                  fsm := BinFsm.SEND }
      else { s' with done := false }
  | BinFsm.SEND =>
      { s' with char := if s.snapshot.testBit 0 then 49 else 48, tx_rdy := true,
                fsm := BinFsm.WAIT_ACK_DOWN }
  | BinFsm.WAIT_ACK_DOWN =>
      if ack = false then { s' with fsm := BinFsm.WAIT_ACK_UP } else s'
  | BinFsm.WAIT_ACK_UP =>
      if ack then
        if s.digit < W - 1 then
          { s' with tx_rdy := false, snapshot := s.snapshot / 2, digit := s.digit + 1,
                    fsm := BinFsm.SEND }
        else { s' with tx_rdy := false, done := true, fsm := BinFsm.IDLE }
      else { s' with tx_rdy := false }

/-- Binary printer plus its consumer. -/
structure BinSys where
  pr : BinPr
  cons : Nat
  deriving Repr, DecidableEq

/-- Reset state of the binary-printer system. -/
def binReset : BinSys :=
  { pr := { fsm := BinFsm.IDLE, snapshot := 0, digit := 0, char := 0,
            tx_rdy := false, done := false, start_last := false }, cons := 0 }

/-- One tick of the binary-printer system at tick `t`; `sig` is the printed
signal as a function of time (it may change during the print). -/
def binSysStep (W : Nat) (sig : Nat → Nat) (start : Nat → Bool) (t : Nat)
    (s : BinSys) : BinSys :=
  { pr := binStep W s.pr (sig t) (start t) (consAck s.cons),
    cons := ackStep s.cons s.pr.tx_rdy }

/-- Binary-printer system state at tick `n` from reset. -/
def binRun (W : Nat) (sig : Nat → Nat) (start : Nat → Bool) : Nat → BinSys
  | 0 => binReset
  | n + 1 => binSysStep W sig start n (binRun W sig start n)

/-- Bytes emitted by the binary-printer system during ticks `[0, n)`. -/
def binEmits (W : Nat) (sig : Nat → Nat) (start : Nat → Bool) : Nat → List Nat
  | 0 => []
  | n + 1 => binEmits W sig start n
      ++ emitNow (binRun W sig start n).cons (binRun W sig start n).pr.tx_rdy
          (binTxData (binRun W sig start n).pr)

/-- The `W` ASCII characters of `v` in binary, least-significant bit first. -/
def bitsLSB (v W : Nat) : List Nat :=
  (List.range W).map fun i => if v.testBit i then 49 else 48

/-- FSM states of `TextMemoryPrinter` (printer.py lines 36-70). -/
inductive TextFsm where
  | IDLE | FETCH | SEND | WAIT_ACK_DOWN | WAIT_ACK_UP
  deriving Repr, DecidableEq

/-- Sync-driven state of `TextMemoryPrinter` (printer.py lines 15-72)
together with the one-tick-latency read-port register `r_data` of its
`Memory`. -/
structure TextPr where
  fsm : TextFsm
  print_newline : Bool
  m_idx : Nat
  tx_rdy : Bool
  done : Bool
  start_last : Bool
  r_data : Nat
  deriving Repr, DecidableEq

/-- Combinational `tx_data` of the text printer:
`Mux(print_newline, ord('\n'), r_port.data)`. -/
def textTxData (s : TextPr) : Nat := if s.print_newline then 10 else s.r_data

/-- One tick of `TextMemoryPrinter` over memory contents `mem` (entries are
8-bit words) and `length = L`.  The read port registers `mem[m_idx]` into
`r_data` every tick.  The `SEND` guard is written `tx_data == 0 &
~print_newline` in the source, which by Python precedence is
`tx_data == (0 & ~print_newline)`, i.e. just `tx_data == 0` — and when
`print_newline` is set `tx_data` is 10 anyway, so the two readings agree. -/
def textStep (mem : List Nat) (L : Nat) (s : TextPr) (start ack : Bool) : TextPr :=
  let s' := { s with start_last := start, r_data := mem.getD s.m_idx 0 }
  match s.fsm with
  | TextFsm.IDLE =>
      if start && !s.start_last then
        { s' with done := false, print_newline := false, fsm := TextFsm.FETCH }
      else { s' with done := false, print_newline := false }
  | TextFsm.FETCH => { s' with fsm := TextFsm.SEND }
  | TextFsm.SEND =>
      if textTxData s = 0 then { s' with print_newline := true }
      else { s' with tx_rdy := true, fsm := TextFsm.WAIT_ACK_DOWN }
  | TextFsm.WAIT_ACK_DOWN =>
      if ack = false then { s' with fsm := TextFsm.WAIT_ACK_UP } else s'
  | TextFsm.WAIT_ACK_UP =>
      if ack then
        if s.print_newline || decide (s.m_idx = L - 1) then
          { s' with tx_rdy := false, m_idx := 0, done := true, fsm := TextFsm.IDLE }
        else { s' with tx_rdy := false, m_idx := s.m_idx + 1, fsm := TextFsm.FETCH }
      else { s' with tx_rdy := false }

/-- Text printer plus its consumer. -/
structure TextSys where
  pr : TextPr
  cons : Nat
  deriving Repr, DecidableEq

/-- Reset state of the text-printer system. -/
def textReset : TextSys :=
  { pr := { fsm := TextFsm.IDLE, print_newline := false, m_idx := 0,
            tx_rdy := false, done := false, start_last := false, r_data := 0 },
    cons := 0 }

/-- One tick of the text-printer system at tick `t`. -/
def textSysStep (mem : List Nat) (L : Nat) (start : Nat → Bool) (t : Nat)
    (s : TextSys) : TextSys :=
  { pr := textStep mem L s.pr (start t) (consAck s.cons),
    cons := ackStep s.cons s.pr.tx_rdy }

/-- Text-printer system state at tick `n` from reset. -/
def textRun (mem : List Nat) (L : Nat) (start : Nat → Bool) : Nat → TextSys
  | 0 => textReset
  | n + 1 => textSysStep mem L start n (textRun mem L start n)

/-- Bytes emitted by the text-printer system during ticks `[0, n)`. -/
def textEmits (mem : List Nat) (L : Nat) (start : Nat → Bool) : Nat → List Nat
  | 0 => []
  | n + 1 => textEmits mem L start n
      ++ emitNow (textRun mem L start n).cons (textRun mem L start n).pr.tx_rdy
          (textTxData (textRun mem L start n).pr)

/-- C-string semantics of the expected text output: the bytes up to the
first zero with a newline in the zero's place, or the whole region if no
zero occurs. -/
def textExpected : List Nat → List Nat
  | [] => []
  | b :: rest => if b = 0 then [10] else b :: textExpected rest

/-- FSM states of `DecimalSignalPrinter` (printer.py lines 222-277). -/
inductive DecFsm where
  | IDLE | MAKE_BASE | COUNTDOWN | SEND | WAIT_ACK_DOWN | WAIT_ACK_UP
  deriving Repr, DecidableEq

/-- Sync-driven state of `DecimalSignalPrinter` (printer.py lines 199-279). -/
structure DecPr where
  fsm : DecFsm
  snapshot : Nat
  digit : Nat
  char : Nat
  base : Nat
  baseExp : Nat
  tx_rdy : Bool
  done : Bool
  start_last : Bool
  deriving Repr, DecidableEq

/-- One tick of `DecimalSignalPrinter` with signal width `N` and
`D = ceil(log10(2^N))` digits (computed in the constructor, line 206).
`base` and `snapshot` are `N`-bit and `char` 8-bit, so their updates
truncate; `(base << 3) + (base << 1)` is the multiply-by-10. -/
def decStep (N D : Nat) (s : DecPr) (sig : Nat) (start ack : Bool) : DecPr :=
  let s' := { s with start_last := start }
  match s.fsm with
  | DecFsm.IDLE =>
      if start && !s.start_last then
        { s' with done := false, snapshot := sig % 2 ^ N, digit := D - 1, base := 1,
                  baseExp := 0, char := 48, fsm := DecFsm.MAKE_BASE }
      else { s' with done := false }
  | DecFsm.MAKE_BASE =>
      if s.baseExp < s.digit then
        { s' with base := (s.base * 8 + s.base * 2) % 2 ^ N, baseExp := s.baseExp + 1 }
      else { s' with fsm := DecFsm.COUNTDOWN }
  | DecFsm.COUNTDOWN =>
      if s.snapshot < s.base then { s' with fsm := DecFsm.SEND }
      else { s' with snapshot := s.snapshot - s.base, char := (s.char + 1) % 2 ^ 8 }
  | DecFsm.SEND => { s' with tx_rdy := true, fsm := DecFsm.WAIT_ACK_DOWN }
  | DecFsm.WAIT_ACK_DOWN =>
      if ack = false then { s' with fsm := DecFsm.WAIT_ACK_UP } else s'
  | DecFsm.WAIT_ACK_UP =>
      if ack then
        if 0 < s.digit then
          { s' with tx_rdy := false, digit := s.digit - 1, base := 1, baseExp := 0,
                    char := 48, fsm := DecFsm.MAKE_BASE }
        else { s' with tx_rdy := false, done := true, fsm := DecFsm.IDLE }
      else { s' with tx_rdy := false }

/-- Decimal printer plus its consumer. -/
structure DecSys where
  pr : DecPr
  cons : Nat
  deriving Repr, DecidableEq

/-- One tick of the 8-bit decimal-printer system printing the constant
signal value `v`, with `start` pulsed at tick 0 only. -/
def decSysStep (v t : Nat) (s : DecSys) : DecSys :=
  { pr := decStep 8 3 s.pr v (decide (t = 0)) (consAck s.cons),
    cons := ackStep s.cons s.pr.tx_rdy }

/-- State and emitted bytes of the 8-bit decimal-printer system after `n`
ticks from reset. -/
def decTrace (v : Nat) : Nat → DecSys × List Nat
  | 0 => ({ pr := { fsm := DecFsm.IDLE, snapshot := 0, digit := 0, char := 0,
                    base := 0, baseExp := 0, tx_rdy := false, done := false,
                    start_last := false }, cons := 0 }, [])
  | n + 1 =>
      let p := decTrace v n
      (decSysStep v n p.1, p.2 ++ emitNow p.1.cons p.1.pr.tx_rdy p.1.pr.char)

/-- The three fixed-width decimal digit characters of an 8-bit value,
most-significant first, zero-padded. -/
def decExpected (v : Nat) : List Nat := [48 + v / 100, 48 + v / 10 % 10, 48 + v % 10]

/-- FSM states of `Toggler` (toggler.py lines 20-28). -/
inductive TogFsm where
  | IDLE | FINISH
  deriving Repr, DecidableEq

/-- Sync-driven state of `Toggler` (toggler.py lines 9-30). -/
structure Tog where
  fsm : TogFsm
  out : Bool
  done : Bool
  start_last : Bool
  deriving Repr, DecidableEq

/-- One tick of `Toggler`: on the rising edge of `start` while idle it flips
`output` and pulses `done` for one tick. -/
def togStep (s : Tog) (start : Bool) : Tog :=
  match s.fsm with
  | TogFsm.IDLE =>
      if start && !s.start_last then
        { s with out := !s.out, done := true, fsm := TogFsm.FINISH, start_last := start }
      else { s with start_last := start }
  | TogFsm.FINISH =>
      { s with done := false, fsm := TogFsm.IDLE, start_last := start }

/-- Toggler state at tick `n`, started from output level `b0`. -/
def togRun (start : Nat → Bool) (b0 : Bool) : Nat → Tog
  | 0 => { fsm := TogFsm.IDLE, out := b0, done := false, start_last := false }
  | n + 1 => togStep (togRun start b0 n) (start n)

/-- The start waveform of two separated one-tick command pulses, at tick 0
and at tick `m`. -/
def twoPulses (m : Nat) : Nat → Bool := fun t => decide (t = 0 ∨ t = m)

end SerialCommander

section Theorems

open SerialCommander

set_option maxRecDepth 10000 in
/-- C3 counterexample: a fully traced reception (divisor 4, byte `0x55`)
whose STOP BIT is sampled low — the line is held low through the whole
stop-bit time and only released afterwards.  The frame completes
(`rx_count = 0`, `rx_rdy` high), its start-bit sample (bit 0) is low and
its stop-bit sample (bit `1 + N` = 9) is low, so the claim's iff demands
`rx_err = true` — yet `rx_err` reads false, because the error logic tests
`rx_shreg[-1]` (bit `N + 2` = 10, the extra trailing sample taken one
bit-time after the stop bit, which here reads the released-high line) and
never the stop-bit sample itself. -/
theorem rx_err_stop_bit_counterexample :
    rxBadStopFinal.rxCount = 0 ∧ rxBadStopFinal.rxRdy = true ∧
    rxBadStopFinal.rxShreg.testBit 0 = false ∧
    rxBadStopFinal.rxShreg.testBit 9 = false ∧
    rxErrOut 8 rxBadStopFinal = false := by
  decide

/-- C3 amended: whenever the receiver is idle (`rx_count = 0`), `rx_err` is
asserted iff, in the just-completed reception, the start bit was sampled
high (bit 0 of `rx_shreg`) or the FINAL sample — the extra trailing sample
taken one bit-time after the stop bit, landing in the top bit `N + 2` of
`rx_shreg` — was low.  The stop-bit sample itself (bit `N + 1`) is never
examined by the error logic (uart.py line 62 reads `rx_shreg[0]` and
`rx_shreg[-1]` only). -/
theorem rx_err_iff_bad_frame (N : Nat) (s : RxState) (h : s.rxCount = 0) :
    rxErrOut N s = true ↔
      (s.rxShreg.testBit 0 = true ∨ s.rxShreg.testBit (N + 2) = false) := by
  simp only [rxErrOut, h, if_pos rfl]
  cases h0 : s.rxShreg.testBit 0 <;> cases h1 : s.rxShreg.testBit (N + 2) <;> simp

/-- Witness for `rx_err_iff_bad_frame` at a concrete idle state. -/
theorem rx_err_iff_bad_frame_witness :
    (resetRx 8).rxCount = 0 ∧
      (rxErrOut 8 (resetRx 8) = true ↔
        ((resetRx 8).rxShreg.testBit 0 = true ∨ (resetRx 8).rxShreg.testBit 10 = false)) :=
  ⟨by decide, rx_err_iff_bad_frame 8 (resetRx 8) (by decide)⟩

/-- C10: from reset the receiver's framing-error flag already reads true
(the shift register resets to all ones, so the start-bit check fails), and
during any in-progress reception (`rx_count ≠ 0`) `rx_err` is forced low. -/
theorem rx_err_at_reset_and_busy (N : Nat) (s : RxState) (h : s.rxCount ≠ 0) :
    rxErrOut N (resetRx N) = true ∧ rxErrOut N s = false := by
  constructor
  · simp only [rxErrOut, resetRx, if_pos rfl]
    have h0 : (2 ^ (N + 3) - 1).testBit 0 = true := by
      rw [Nat.testBit_two_pow_sub_one]
      simp
    simp [h0]
  · simp [rxErrOut, h]

/-- Witness for `rx_err_at_reset_and_busy` at a concrete busy state. -/
theorem rx_err_at_reset_and_busy_witness :
    rxErrOut 8 (resetRx 8) = true ∧
      rxErrOut 8 { rxPhase := 3, rxShreg := 0, rxCount := 5, rxRdy := false, rxOvf := false } = false :=
  rx_err_at_reset_and_busy 8 _ (by decide)

/-- C4 counterexample: arming the idle receiver (divisor 4, 8 data bits) on a
start-bit edge sets the bit-count to 11 = `1 + 8 + 2`, not to the claimed
frame length `1 + 8 + 1 = 10`. -/
theorem rx_arm_count_counterexample :
    (rxStep 4 8 (resetRx 8) false false).rxCount = 11 ∧ ¬ (11 : Nat) = 1 + 8 + 1 := by
  constructor
  · decide
  · decide

/-- C4 amended: on a start-bit edge while idle the receiver arms its bit-count
to `N + 3` (start bit + `N` data bits + stop bit + one extra trailing sample,
the full `rx_shreg` length) with initial phase `divisor / 2`, and `rx_rdy` is
asserted exactly by the tick that takes the last of those `N + 3` samples
(bit-count 1, phase 0), being left untouched while earlier samples are
pending. -/
theorem rx_arm_and_ready (d N : Nat) (s : RxState) (ack : Bool)
    (h0 : s.rxCount = 0) (hfree : ack = true ∨ s.rxRdy = false) :
    ((rxStep d N s false ack).rxCount = N + 3 ∧
      (rxStep d N s false ack).rxPhase = d / 2) ∧
    (∀ s' : RxState, ∀ rxI ack' : Bool, s'.rxCount = 1 → s'.rxPhase = 0 →
      (rxStep d N s' rxI ack').rxRdy = true) ∧
    (∀ s' : RxState, ∀ rxI ack' : Bool, 2 ≤ s'.rxCount →
      (rxStep d N s' rxI ack').rxRdy = s'.rxRdy) := by
  refine ⟨?_, ?_, ?_⟩
  · have hga : (ack || !s.rxRdy) = true := by
      rcases hfree with h | h <;> simp [h]
    simp [rxStep, h0, hga]
  · intro s' rxI ack' hc hp
    simp [rxStep, hc, hp]
  · intro s' rxI ack' hc
    have hne : ¬ s'.rxCount = 0 := by omega
    have hne1 : ¬ s'.rxCount = 1 := by omega
    by_cases hp : s'.rxPhase = 0 <;> simp [rxStep, hne, hne1, hp]

/-- Witness for `rx_arm_and_ready` at divisor 5, from reset, with a concrete
last-sample state and a concrete mid-frame state. -/
theorem rx_arm_and_ready_witness :
    ((rxStep 5 8 (resetRx 8) false false).rxCount = 11 ∧
      (rxStep 5 8 (resetRx 8) false false).rxPhase = 2) ∧
    (∀ s' : RxState, ∀ rxI ack' : Bool, s'.rxCount = 1 → s'.rxPhase = 0 →
      (rxStep 5 8 s' rxI ack').rxRdy = true) ∧
    (∀ s' : RxState, ∀ rxI ack' : Bool, 2 ≤ s'.rxCount →
      (rxStep 5 8 s' rxI ack').rxRdy = s'.rxRdy) :=
  rx_arm_and_ready 5 8 (resetRx 8) false (by decide) (Or.inr (by decide))

/-- Helper: A's transmitter loads the frame at the strobe tick. -/
theorem atx_one (d byte : Nat) :
    atx d byte 1 = { txPhase := d - 1, txShreg := txFrame byte, txCount := 10 } := by
  simp [atx, roundTrip, uartStep, txStep, resetUart, resetTx, txFrame]

/-- Helper: from tick 1 on, A's transmitter evolves autonomously under
`txIdle` (its `tx_rdy` input is low and its receive side is irrelevant). -/
theorem atx_iterate (d byte n : Nat) :
    atx d byte (n + 1)
      = (txIdle d byte)^[n] { txPhase := d - 1, txShreg := txFrame byte, txCount := 10 } := by
  induction n with
  | zero => simpa using atx_one d byte
  | succ n ih =>
      have hstep : atx d byte (n + 1 + 1)
          = txStep d 8 (atx d byte (n + 1)) byte (decide (n + 1 = 0)) := rfl
      rw [hstep, ih]
      rw [Function.iterate_succ_apply']
      simp [txIdle]

/-- Helper: while `tx_count ≠ 0` the transmitter counts its phase down,
leaving the shift register and bit count untouched. -/
theorem txIdle_phase_run (d byte c : Nat) (hc : c ≠ 0) :
    ∀ k ph sreg : Nat, k ≤ ph →
      (txIdle d byte)^[k] { txPhase := ph, txShreg := sreg, txCount := c }
        = { txPhase := ph - k, txShreg := sreg, txCount := c } := by
  intro k
  induction k with
  | zero => intro ph sreg hk; simp
  | succ k ih =>
      intro ph sreg hk
      rw [Function.iterate_succ_apply]
      have hph : ¬ ph = 0 := by omega
      have hf : txIdle d byte { txPhase := ph, txShreg := sreg, txCount := c }
          = { txPhase := ph - 1, txShreg := sreg, txCount := c } := by
        simp [txIdle, txStep, hc, hph]
      rw [hf, ih (ph - 1) sreg (by omega)]
      have harith : ph - 1 - k = ph - (k + 1) := by omega
      rw [harith]

/-- Helper: one whole bit time (`d` ticks) shifts the transmit register once
and decrements the bit count. -/
theorem txIdle_bit_chunk (d byte : Nat) (hd : 1 ≤ d) (sreg c : Nat) (hc : c ≠ 0) :
    (txIdle d byte)^[d] { txPhase := d - 1, txShreg := sreg, txCount := c }
      = { txPhase := d - 1, txShreg := txShift sreg, txCount := c - 1 } := by
  have hiter : (txIdle d byte)^[d] = (txIdle d byte)^[1 + (d - 1)] := by
    rw [show (1 : Nat) + (d - 1) = d by omega]
  rw [hiter, Function.iterate_add_apply, Function.iterate_one,
      txIdle_phase_run d byte c hc (d - 1) (d - 1) sreg (le_refl _)]
  have hz : d - 1 - (d - 1) = 0 := by omega
  rw [hz]
  simp [txIdle, txStep, hc, txShift]

/-- Helper: `j` whole bit times shift the transmit register `j` times. -/
theorem txIdle_bits (d byte : Nat) (hd : 1 ≤ d) :
    ∀ j c sreg : Nat, j ≤ c →
      (txIdle d byte)^[j * d] { txPhase := d - 1, txShreg := sreg, txCount := c }
        = { txPhase := d - 1, txShreg := txShift^[j] sreg, txCount := c - j } := by
  intro j
  induction j with
  | zero => intro c sreg hj; simp
  | succ j ih =>
      intro c sreg hj
      have hc : c ≠ 0 := by omega
      have hsplit : (j + 1) * d = j * d + d := by ring
      rw [hsplit, Function.iterate_add_apply, txIdle_bit_chunk d byte hd sreg c hc,
          ih (c - 1) (txShift sreg) (by omega), ← Function.iterate_succ_apply]
      have harith : c - 1 - j = c - (j + 1) := by omega
      rw [harith]

/-- Helper: once `tx_count = 0` and `tx_rdy` stays low, the transmitter is
frozen. -/
theorem txIdle_freeze (d byte : Nat) :
    ∀ k ph sreg : Nat,
      (txIdle d byte)^[k] { txPhase := ph, txShreg := sreg, txCount := 0 }
        = { txPhase := ph, txShreg := sreg, txCount := 0 } := by
  intro k
  induction k with
  | zero => intro ph sreg; simp
  | succ k ih =>
      intro ph sreg
      rw [Function.iterate_succ_apply]
      have hf : txIdle d byte { txPhase := ph, txShreg := sreg, txCount := 0 }
          = { txPhase := ph, txShreg := sreg, txCount := 0 } := by
        simp [txIdle, txStep]
      rw [hf, ih]

/-- Helper: closed form for `j` shifts of the 10-bit transmit register:
the low bits move down `j` places and ones fill the top `j` places. -/
theorem txShift_iterate :
    ∀ j : Nat, j ≤ 10 → ∀ sreg : Nat, sreg < 2 ^ 10 →
      txShift^[j] sreg = sreg / 2 ^ j + (2 ^ 10 - 2 ^ (10 - j)) := by
  intro j
  induction j with
  | zero => intro hj sreg hs; simp
  | succ j ih =>
      intro hj sreg hs
      rw [Function.iterate_succ_apply', ih (by omega) sreg hs]
      show (sreg / 2 ^ j + (2 ^ 10 - 2 ^ (10 - j))) / 2 + 2 ^ 9
          = sreg / 2 ^ (j + 1) + (2 ^ 10 - 2 ^ (10 - (j + 1)))
      have h9 : (10 : Nat) - j = (9 - j) + 1 := by omega
      have h9' : (10 : Nat) - (j + 1) = 9 - j := by omega
      have hle : (2 : Nat) ^ (9 - j) ≤ 2 ^ 9 := Nat.pow_le_pow_right (by omega) (by omega)
      have h512 : (2 : Nat) ^ 9 = 512 := by norm_num
      have h1024 : (2 : Nat) ^ 10 = 1024 := by norm_num
      have hB : 2 ^ 10 - 2 ^ (10 - j) = (2 ^ 9 - 2 ^ (9 - j)) * 2 := by
        rw [h9, pow_succ]
        omega
      rw [hB, Nat.add_mul_div_right _ _ (by omega : (0 : Nat) < 2)]
      rw [Nat.div_div_eq_div_mul, ← pow_succ, h9']
      omega

/-- Helper: bit 0 after `j ≤ 9` shifts is the original bit `j`. -/
theorem txShift_iterate_bit_zero (j : Nat) (hj : j ≤ 9) (sreg : Nat) (hs : sreg < 2 ^ 10) :
    (txShift^[j] sreg).testBit 0 = sreg.testBit j := by
  rw [txShift_iterate j (by omega) sreg hs]
  rw [Nat.testBit_zero, Nat.testBit_to_div_mod]
  have h9 : (10 : Nat) - j = (9 - j) + 1 := by omega
  have hle : (2 : Nat) ^ (9 - j) ≤ 2 ^ 9 := Nat.pow_le_pow_right (by omega) (by omega)
  have h512 : (2 : Nat) ^ 9 = 512 := by norm_num
  have h1024 : (2 : Nat) ^ 10 = 1024 := by norm_num
  have hmod : (sreg / 2 ^ j + (2 ^ 10 - 2 ^ (10 - j))) % 2 = sreg / 2 ^ j % 2 := by
    rw [h9, pow_succ]
    omega
  rw [hmod]

/-- Helper: the level of A's `tx_o` at every tick of the scenario is the
frame wave `txWave`: bit `n / d` of the frame for the first `10 d` ticks
after the load, idle-high forever after. -/
theorem atx_txO (d byte : Nat) (hd : 4 ≤ d) (hb : byte < 256) (n : Nat) :
    txO (atx d byte (n + 1)) = txWave d byte n := by
  have hframe : txFrame byte < 2 ^ 10 := by
    have : (2 : Nat) ^ 9 = 512 := by norm_num
    simp only [txFrame]
    omega
  rw [atx_iterate]
  by_cases hn : n < 10 * d
  · have hd0 : 0 < d := by omega
    have hq : n / d < 10 := (Nat.div_lt_iff_lt_mul hd0).mpr (by omega)
    have hsplit : n = n % d + n / d * d := (Nat.mod_add_div' n d).symm
    conv_lhs => rw [hsplit]
    rw [Function.iterate_add_apply,
        txIdle_bits d byte (by omega) (n / d) 10 (txFrame byte) (by omega),
        txIdle_phase_run d byte (10 - n / d) (by omega) (n % d) (d - 1) _
          (by have := Nat.mod_lt n hd0; omega)]
    show (txShift^[n / d] (txFrame byte)).testBit 0 = txWave d byte n
    rw [txShift_iterate_bit_zero (n / d) (by omega) _ hframe]
    rw [txWave, if_pos hn]
  · have h10 : n = (n - 10 * d) + 10 * d := by omega
    conv_lhs => rw [h10]
    rw [Function.iterate_add_apply,
        txIdle_bits d byte (by omega) 10 10 (txFrame byte) (le_refl _),
        Nat.sub_self, txIdle_freeze]
    show (txShift^[10] (txFrame byte)).testBit 0 = txWave d byte n
    rw [txShift_iterate 10 (le_refl _) _ hframe,
        Nat.div_eq_of_lt hframe, txWave, if_neg hn]
    decide

/-- Helper: B's receiver at tick `n + 1` steps on A's current line level. -/
theorem brx_succ (d byte n : Nat) :
    brx d byte (n + 1) = rxStep d 8 (brx d byte n) (txO (atx d byte n)) false := rfl

/-- Helper: while mid-frame, B's receiver counts its phase down. -/
theorem brx_phase_run (d byte : Nat) :
    ∀ k t ph sh c : Nat, ∀ rd ov : Bool, c ≠ 0 → k ≤ ph →
      brx d byte t = { rxPhase := ph, rxShreg := sh, rxCount := c, rxRdy := rd, rxOvf := ov } →
      brx d byte (t + k)
        = { rxPhase := ph - k, rxShreg := sh, rxCount := c, rxRdy := rd, rxOvf := ov } := by
  intro k
  induction k with
  | zero => intro t ph sh c rd ov hc hk h; simpa using h
  | succ k ih =>
      intro t ph sh c rd ov hc hk h
      have hph : ¬ ph = 0 := by omega
      have h1 : brx d byte (t + 1)
          = { rxPhase := ph - 1, rxShreg := sh, rxCount := c, rxRdy := rd, rxOvf := ov } := by
        rw [brx_succ, h]
        simp [rxStep, hc, hph]
      have h2 := ih (t + 1) (ph - 1) sh c rd ov hc (by omega) h1
      have ha1 : t + 1 + k = t + (k + 1) := by omega
      have ha2 : ph - 1 - k = ph - (k + 1) := by omega
      rw [ha1, ha2] at h2
      exact h2

/-- Helper: at phase 0 mid-frame, B's receiver shifts in the line sample and
decrements its bit count, raising `rx_rdy` on the last sample. -/
theorem brx_sample (d byte t sh c : Nat) (rd ov : Bool) (hc : c ≠ 0)
    (h : brx d byte t
      = { rxPhase := 0, rxShreg := sh, rxCount := c, rxRdy := rd, rxOvf := ov }) :
    brx d byte (t + 1)
      = { rxPhase := d - 1,
          rxShreg := sh / 2 + (if txO (atx d byte t) then 2 ^ 10 else 0),
          rxCount := c - 1, rxRdy := if c = 1 then true else rd, rxOvf := ov } := by
  rw [brx_succ, h]
  simp [rxStep, hc]

/-- Helper: B arms on the start-bit edge: by tick 2 the bit count is 11 and
the phase is `d / 2`. -/
theorem brx_two (d byte : Nat) (hd : 4 ≤ d) :
    brx d byte 2 = { rxPhase := d / 2, rxShreg := 2 ^ 11 - 1, rxCount := 11,
                     rxRdy := false, rxOvf := false } := by
  have h0 : brx d byte 0 = resetRx 8 := rfl
  have h1 : brx d byte 1 = resetRx 8 := by
    rw [brx_succ, h0]
    have hline : txO (atx d byte 0) = true := by
      simp [atx, roundTrip, resetUart, resetTx, txO, Nat.testBit_two_pow_sub_one]
    rw [hline]
    simp [rxStep, resetRx]
  rw [brx_succ, h1]
  have hlow : txO (atx d byte 1) = false := by
    rw [atx_one]
    show (txFrame byte).testBit 0 = false
    rw [Nat.testBit_zero]
    have : txFrame byte % 2 = 0 := by
      simp only [txFrame]
      omega
    simp [this]
  rw [hlow]
  simp [rxStep, resetRx]

/-- Helper: B's receiver takes its 11 samples at the frame-centred ticks
`2 + d/2 + j*d + 1`, accumulating exactly `rxAccum` and raising `rx_rdy`
with the last sample. -/
theorem brx_frame (d byte : Nat) (hd : 4 ≤ d) (hb : byte < 256) :
    ∀ i : Nat, i ≤ 10 →
      brx d byte (3 + d / 2 + i * d)
        = { rxPhase := d - 1, rxShreg := rxAccum byte (i + 1), rxCount := 10 - i,
            rxRdy := decide (i = 10), rxOvf := false } := by
  have hd0 : 0 < d := by omega
  intro i
  induction i with
  | zero =>
      intro hi
      have h2 := brx_two d byte hd
      have hrun := brx_phase_run d byte (d / 2) 2 (d / 2) (2 ^ 11 - 1) 11 false false
        (by omega) (le_refl _) h2
      rw [Nat.sub_self] at hrun
      have hsamp := brx_sample d byte (2 + d / 2) (2 ^ 11 - 1) 11 false false
        (by omega) hrun
      have hw : txO (atx d byte (2 + d / 2)) = rxSample byte 0 := by
        have he : 2 + d / 2 = (1 + d / 2) + 1 := by omega
        rw [he, atx_txO d byte hd hb (1 + d / 2)]
        rw [txWave, if_pos (by omega : 1 + d / 2 < 10 * d)]
        rw [Nat.div_eq_of_lt (by omega : 1 + d / 2 < d)]
        rw [rxSample, if_pos (by omega : (0 : Nat) < 10)]
      rw [hw] at hsamp
      have hgoal : 3 + d / 2 + 0 * d = 2 + d / 2 + 1 := by omega
      rw [hgoal, hsamp]
      have hacc : rxAccum byte 1
          = (2 ^ 11 - 1) / 2 + (if rxSample byte 0 then 2 ^ 10 else 0) := by
        conv_lhs => rw [show (1 : Nat) = 0 + 1 from rfl, rxAccum, rxAccum]
      rw [hacc]
      norm_num
  | succ i ih =>
      intro hi
      have hprev := ih (by omega)
      have hne : (decide (i = 10)) = false := decide_eq_false (by omega)
      rw [hne] at hprev
      have hc : 10 - i ≠ 0 := by omega
      have hrun := brx_phase_run d byte (d - 1) (3 + d / 2 + i * d) (d - 1)
        (rxAccum byte (i + 1)) (10 - i) false false hc (le_refl _) hprev
      rw [Nat.sub_self] at hrun
      have hsamp := brx_sample d byte (3 + d / 2 + i * d + (d - 1))
        (rxAccum byte (i + 1)) (10 - i) false false hc hrun
      have hmul : (i + 1) * d = i * d + d := by ring
      have hu : 3 + d / 2 + i * d + (d - 1) = (1 + d / 2 + (i + 1) * d) + 1 := by
        rw [hmul]; omega
      have hw : txO (atx d byte ((1 + d / 2 + (i + 1) * d) + 1)) = rxSample byte (i + 1) := by
        rw [atx_txO d byte hd hb (1 + d / 2 + (i + 1) * d)]
        by_cases h9 : i + 1 ≤ 9
        · have hlt : (i + 1) * d ≤ 9 * d := Nat.mul_le_mul_right d (by omega)
          have hin : 1 + d / 2 + (i + 1) * d < 10 * d := by omega
          rw [txWave, if_pos hin]
          rw [Nat.add_mul_div_right _ _ hd0, Nat.div_eq_of_lt (by omega : 1 + d / 2 < d)]
          rw [rxSample, if_pos (by omega : i + 1 < 10), Nat.zero_add]
        · have h10 : i + 1 = 10 := by omega
          have hge : ¬ 1 + d / 2 + (i + 1) * d < 10 * d := by
            rw [h10]; omega
          rw [txWave, if_neg hge, rxSample, if_neg (by omega : ¬ i + 1 < 10)]
      rw [hu, hw] at hsamp
      have htick : (1 + d / 2 + (i + 1) * d) + 1 + 1 = 3 + d / 2 + (i + 1) * d := by
        rw [hmul]; omega
      rw [htick] at hsamp
      rw [hsamp]
      have hcnt : 10 - i - 1 = 10 - (i + 1) := by omega
      have hacc : rxAccum byte (i + 1) / 2 + (if rxSample byte (i + 1) then 2 ^ 10 else 0)
          = rxAccum byte (i + 2) := rfl
      rw [hcnt, hacc]
      by_cases h9 : i = 9
      · subst h9
        norm_num
      · have hn1 : ¬ 10 - i = 1 := by omega
        have hn2 : (decide (i + 1 = 10)) = false := decide_eq_false (by omega)
        rw [hn2, if_neg hn1]

set_option maxRecDepth 10000 in
/-- Helper: the fully sampled shift register reconstructs every byte, with a
low start-bit sample in bit 0 and a high final sample in bit 10. -/
theorem rxAccum_final_all :
    ∀ b : Nat, b < 256 → rxAccum b 11 / 2 % 2 ^ 8 = b ∧
      (rxAccum b 11).testBit 0 = false ∧ (rxAccum b 11).testBit 10 = true := by
  decide

/-- C1: round trip.  For every byte and every divisor `d ≥ 4`, with one
UART's transmit wired to a same-divisor UART's receive and the link
otherwise idle, strobing the byte through the transmit handshake leads the
receiver eventually (at tick `3 + d/2 + 10 d`) to assert `rx_rdy` with
`rx_data` equal to the byte sent and no framing error. -/
theorem uart_round_trip (d byte : Nat) (hd : 4 ≤ d) (hb : byte < 256) :
    ∃ n, (roundTrip d byte n).2.rx.rxRdy = true ∧
      rxDataOut 8 (roundTrip d byte n).2.rx = byte ∧
      rxErrOut 8 (roundTrip d byte n).2.rx = false := by
  refine ⟨3 + d / 2 + 10 * d, ?_⟩
  have hfin := brx_frame d byte hd hb 10 (le_refl _)
  have hD := rxAccum_final_all byte hb
  have hbrx : (roundTrip d byte (3 + d / 2 + 10 * d)).2.rx
      = brx d byte (3 + d / 2 + 10 * d) := rfl
  rw [hbrx, hfin]
  refine ⟨rfl, ?_, ?_⟩
  · show rxAccum byte 11 / 2 % 2 ^ 8 = byte
    exact hD.1
  · show rxErrOut 8 _ = false
    simp only [rxErrOut, hD.2.1, hD.2.2]
    norm_num

/-- Witness for `uart_round_trip`: divisor 5, byte `0x72` (the repository's
own loopback test vector). -/
theorem uart_round_trip_witness :
    (4 : Nat) ≤ 5 ∧ (114 : Nat) < 256 ∧
      ∃ n, (roundTrip 5 114 n).2.rx.rxRdy = true ∧
        rxDataOut 8 (roundTrip 5 114 n).2.rx = 114 ∧
        rxErrOut 8 (roundTrip 5 114 n).2.rx = false :=
  ⟨by decide, by decide, uart_round_trip 5 114 (by decide) (by decide)⟩

/-- Helper: `getD` on a mapped `List.range`. -/
theorem getD_map_range (n i : Nat) (f : Nat → Bool) (hi : i < n) :
    (((List.range n).map f).getD i false) = f i := by
  simp [List.getD, List.getElem?_map, List.getElem?_range, hi]

/-- C2: the multiplexing contract.  With no active command (`active = 0`) the
UART's `tx_data`/`tx_rdy` are forced to `0`/`false`, `activeDone` reads
`false`, and no task receives a `start` or `tx_ack` pulse.  With command `i`
active (`1 ≤ i ≤ len`), the UART's `tx_data`/`tx_rdy` equal task `i`'s
outputs, `done` is observed from task `i`, and task `i` alone receives
`activeStart` and the UART's `tx_ack` — every other task's `start`/`tx_ack`
lines read `false`, so at most one handler is ever wired to the transmit
path at a tick. -/
theorem commander_mux_exclusive (tasks : List TaskPorts) (active : Nat)
    (aS uAck : Bool) (hrange : active ≤ tasks.length) :
    (active = 0 →
      (commanderMux tasks active aS uAck).uart_tx_data = 0 ∧
      (commanderMux tasks active aS uAck).uart_tx_rdy = false ∧
      (commanderMux tasks active aS uAck).activeDone = false ∧
      (∀ b ∈ (commanderMux tasks active aS uAck).starts, b = false) ∧
      (∀ b ∈ (commanderMux tasks active aS uAck).acks, b = false)) ∧
    (1 ≤ active →
      (commanderMux tasks active aS uAck).uart_tx_data
        = (tasks.getD (active - 1) noTask).tx_data ∧
      (commanderMux tasks active aS uAck).uart_tx_rdy
        = (tasks.getD (active - 1) noTask).tx_rdy ∧
      (commanderMux tasks active aS uAck).activeDone
        = (tasks.getD (active - 1) noTask).done ∧
      (commanderMux tasks active aS uAck).starts.getD (active - 1) false = aS ∧
      (commanderMux tasks active aS uAck).acks.getD (active - 1) false = uAck ∧
      (∀ j, j < tasks.length → j ≠ active - 1 →
        (commanderMux tasks active aS uAck).starts.getD j false = false ∧
        (commanderMux tasks active aS uAck).acks.getD j false = false)) := by
  constructor
  · intro h0
    have hno : ¬ (1 ≤ active ∧ active ≤ tasks.length) := by omega
    simp only [commanderMux, if_neg hno]
    refine ⟨trivial, trivial, trivial, ?_, ?_⟩ <;>
      · intro b hb
        exact List.eq_of_mem_replicate hb
  · intro h1
    have hyes : 1 ≤ active ∧ active ≤ tasks.length := ⟨h1, hrange⟩
    have ha : active - 1 < tasks.length := by omega
    simp only [commanderMux, if_pos hyes]
    refine ⟨trivial, trivial, trivial, ?_, ?_, ?_⟩
    · rw [getD_map_range _ _ _ ha]; simp
    · rw [getD_map_range _ _ _ ha]; simp
    · intro j hj hne
      rw [getD_map_range _ _ _ hj, getD_map_range _ _ _ hj]
      simp [hne]

/-- Witness for `commander_mux_exclusive` on a concrete two-task table with
command 2 active. -/
theorem commander_mux_exclusive_witness :
    let tasks := [{ tx_data := 65, tx_rdy := true, done := false : TaskPorts },
                  { tx_data := 66, tx_rdy := false, done := true : TaskPorts }]
    ((2 : Nat) = 0 →
      (commanderMux tasks 2 true true).uart_tx_data = 0 ∧
      (commanderMux tasks 2 true true).uart_tx_rdy = false ∧
      (commanderMux tasks 2 true true).activeDone = false ∧
      (∀ b ∈ (commanderMux tasks 2 true true).starts, b = false) ∧
      (∀ b ∈ (commanderMux tasks 2 true true).acks, b = false)) ∧
    ((1 : Nat) ≤ 2 →
      (commanderMux tasks 2 true true).uart_tx_data = (tasks.getD 1 noTask).tx_data ∧
      (commanderMux tasks 2 true true).uart_tx_rdy = (tasks.getD 1 noTask).tx_rdy ∧
      (commanderMux tasks 2 true true).activeDone = (tasks.getD 1 noTask).done ∧
      (commanderMux tasks 2 true true).starts.getD 1 false = true ∧
      (commanderMux tasks 2 true true).acks.getD 1 false = true ∧
      (∀ j, j < tasks.length → j ≠ 1 →
        (commanderMux tasks 2 true true).starts.getD j false = false ∧
        (commanderMux tasks 2 true true).acks.getD j false = false)) :=
  commander_mux_exclusive _ 2 true true (by decide)

/-- Helper: a byte absent from the command table never matches. -/
theorem lookupIdx_eq_none (letters : List Nat) (b : Nat) (h : b ∉ letters) :
    lookupIdx letters b = none := by
  induction letters with
  | nil => rfl
  | cons k rest ih =>
      have hk : ¬ k = b := by
        intro hkb
        exact h (hkb ▸ List.mem_cons_self k rest)
      have hrest : b ∉ rest := fun hb => h (List.mem_cons_of_mem _ hb)
      simp [lookupIdx, hk, ih hrest]

/-- C9: in `READ_CHAR`, a received byte absent from the command table is
consumed (`rx_ack` is asserted) and the dispatcher returns to `WAIT_MESSAGE`
with the active index still 0 and `activeStart` untouched; with index 0 the
multiplexer keeps `tx_rdy` forced low and delivers no `start` pulse to any
task, so no task is started, no byte is transmitted, and no error is
surfaced on any output. -/
theorem unrecognized_command_dropped (letters : List Nat) (s : CmdState)
    (rxRdy : Bool) (rxData : Nat) (activeDone : Bool)
    (hfsm : s.fsm = CmdFsm.READ_CHAR) (hnot : rxData ∉ letters)
    (hact : s.activeCommand = 0) :
    (commanderStep letters s rxRdy rxData activeDone).rx_ack = true ∧
    (commanderStep letters s rxRdy rxData activeDone).fsm = CmdFsm.WAIT_MESSAGE ∧
    (commanderStep letters s rxRdy rxData activeDone).activeCommand = 0 ∧
    (commanderStep letters s rxRdy rxData activeDone).activeStart = s.activeStart ∧
    (∀ tasks : List TaskPorts, ∀ uAck : Bool,
      (commanderMux tasks ((commanderStep letters s rxRdy rxData activeDone).activeCommand)
          ((commanderStep letters s rxRdy rxData activeDone).activeStart) uAck).uart_tx_rdy
        = false ∧
      (∀ b ∈ (commanderMux tasks
          ((commanderStep letters s rxRdy rxData activeDone).activeCommand)
          ((commanderStep letters s rxRdy rxData activeDone).activeStart) uAck).starts,
        b = false)) := by
  have hstep : commanderStep letters s rxRdy rxData activeDone
      = { s with rx_ack := true, fsm := CmdFsm.WAIT_MESSAGE } := by
    simp [commanderStep, hfsm, lookupIdx_eq_none letters rxData hnot]
  rw [hstep]
  refine ⟨rfl, rfl, hact, rfl, ?_⟩
  intro tasks uAck
  have hno : ¬ (1 ≤ (0 : Nat) ∧ (0 : Nat) ≤ tasks.length) := by omega
  constructor
  · simp only [hact, commanderMux, if_neg hno]
  · simp only [hact, commanderMux, if_neg hno]
    intro b hb
    exact List.eq_of_mem_replicate hb

/-- Witness for `unrecognized_command_dropped`: byte `63` is not in the
two-entry table `[43, 45]`. -/
theorem unrecognized_command_dropped_witness :
    (commanderStep [43, 45]
        { fsm := CmdFsm.READ_CHAR, activeCommand := 0, activeStart := false,
          done_last := false, rx_ack := false } true 63 false).rx_ack = true ∧
    (commanderStep [43, 45]
        { fsm := CmdFsm.READ_CHAR, activeCommand := 0, activeStart := false,
          done_last := false, rx_ack := false } true 63 false).fsm = CmdFsm.WAIT_MESSAGE := by
  have h := unrecognized_command_dropped [43, 45]
    { fsm := CmdFsm.READ_CHAR, activeCommand := 0, activeStart := false,
      done_last := false, rx_ack := false } true 63 false rfl (by decide) rfl
  exact ⟨h.1, h.2.1⟩

/-- Helper: with `start` held high forever, from tick 2 on the Toggler sits
in `IDLE` with `start_last` high, so the edge detector never refires. -/
theorem togRun_held_fixed (b0 : Bool) :
    ∀ k, togRun (fun _ => true) b0 (2 + k)
      = { fsm := TogFsm.IDLE, out := !b0, done := false, start_last := true } := by
  intro k
  induction k with
  | zero => simp [togRun, togStep]
  | succ k ih =>
      have h : (2 : Nat) + (k + 1) = (2 + k) + 1 := rfl
      rw [h]
      simp [togRun, ih, togStep]

/-- Helper: between the two pulses the Toggler idles with the first flip
latched. -/
theorem togRun_gap (b0 : Bool) (m : Nat) (hm : 2 ≤ m) :
    ∀ k, 2 + k ≤ m → togRun (twoPulses m) b0 (2 + k)
      = { fsm := TogFsm.IDLE, out := !b0, done := false, start_last := false } := by
  intro k
  induction k with
  | zero =>
      intro hk
      have hs0 : twoPulses m 0 = true := by simp [twoPulses]
      have hs1 : twoPulses m 1 = false := by
        simp only [twoPulses, decide_eq_false_iff_not]
        omega
      simp [togRun, togStep, hs0, hs1]
  | succ k ih =>
      intro hk
      have hprev := ih (by omega)
      have hsk : twoPulses m (2 + k) = false := by
        simp only [twoPulses, decide_eq_false_iff_not]
        omega
      have h : (2 : Nat) + (k + 1) = (2 + k) + 1 := rfl
      rw [h]
      simp [togRun, hprev, togStep, hsk]

/-- Helper: after the second pulse completes, the Toggler idles back at its
starting level. -/
theorem togRun_after (b0 : Bool) (m : Nat) (hm : 2 ≤ m) :
    ∀ k, togRun (twoPulses m) b0 (m + 2 + k)
      = { fsm := TogFsm.IDLE, out := b0, done := false, start_last := false } := by
  intro k
  induction k with
  | zero =>
      have hmst := togRun_gap b0 m hm (m - 2) (by omega)
      rw [show 2 + (m - 2) = m by omega] at hmst
      have hsm : twoPulses m m = true := by simp [twoPulses]
      have hsm1 : twoPulses m (m + 1) = false := by
        simp only [twoPulses, decide_eq_false_iff_not]
        omega
      have h1 : togRun (twoPulses m) b0 (m + 1)
          = { fsm := TogFsm.FINISH, out := b0, done := true, start_last := true } := by
        have hu : togRun (twoPulses m) b0 (m + 1)
            = togStep (togRun (twoPulses m) b0 m) (twoPulses m m) := rfl
        rw [hu, hmst, hsm]
        simp [togStep]
      have hu2 : togRun (twoPulses m) b0 (m + 2)
          = togStep (togRun (twoPulses m) b0 (m + 1)) (twoPulses m (m + 1)) := rfl
      show togRun (twoPulses m) b0 (m + 2) = _
      rw [hu2, h1, hsm1]
      simp [togStep]
  | succ k ih =>
      have hsk : twoPulses m (m + 2 + k) = false := by
        simp only [twoPulses, decide_eq_false_iff_not]
        omega
      have h : m + 2 + (k + 1) = (m + 2 + k) + 1 := rfl
      rw [h]
      simp [togRun, ih, togStep, hsk]

/-- C8: the Toggler is edge-triggered.  Two one-tick command pulses at ticks
0 and `m ≥ 2` (idle ticks in between) flip the output exactly twice — it is
inverted on ticks `1..m` and back at its starting level from tick `m + 1`
on — while a `start` held high on every tick with no deassertion flips the
output exactly once, staying inverted forever. -/
theorem toggler_edge_detected (b0 : Bool) (m : Nat) (hm : 2 ≤ m) :
    ((togRun (twoPulses m) b0 0).out = b0 ∧
     (∀ t, 1 ≤ t → t ≤ m → (togRun (twoPulses m) b0 t).out = !b0) ∧
     (∀ t, m + 1 ≤ t → (togRun (twoPulses m) b0 t).out = b0)) ∧
    (∀ t, 1 ≤ t → (togRun (fun _ => true) b0 t).out = !b0) := by
  refine ⟨⟨rfl, ?_, ?_⟩, ?_⟩
  · intro t ht1 htm
    by_cases h1 : t = 1
    · subst h1
      have hs0 : twoPulses m 0 = true := by simp [twoPulses]
      simp [togRun, togStep, hs0]
    · have := togRun_gap b0 m hm (t - 2) (by omega)
      rw [show 2 + (t - 2) = t by omega] at this
      rw [this]
  · intro t htm
    by_cases h1 : t = m + 1
    · subst h1
      have hmst := togRun_gap b0 m hm (m - 2) (by omega)
      rw [show 2 + (m - 2) = m by omega] at hmst
      have hsm : twoPulses m m = true := by simp [twoPulses]
      have hu : togRun (twoPulses m) b0 (m + 1)
          = togStep (togRun (twoPulses m) b0 m) (twoPulses m m) := rfl
      rw [hu, hmst, hsm]
      simp [togStep]
    · have := togRun_after b0 m hm (t - (m + 2))
      rw [show m + 2 + (t - (m + 2)) = t by omega] at this
      rw [this]
  · intro t ht
    by_cases h1 : t = 1
    · subst h1
      simp [togRun, togStep]
    · have := togRun_held_fixed b0 (t - 2)
      rw [show 2 + (t - 2) = t by omega] at this
      rw [this]

/-- Witness for `toggler_edge_detected` with pulses at ticks 0 and 2. -/
theorem toggler_edge_detected_witness :
    (togRun (twoPulses 2) false 2).out = !false ∧
    (togRun (twoPulses 2) false 3).out = false ∧
    (togRun (fun _ => true) false 4).out = !false :=
  ⟨(toggler_edge_detected false 2 (by decide)).1.2.1 2 (by decide) (by decide),
   (toggler_edge_detected false 2 (by decide)).1.2.2 3 (by decide),
   (toggler_edge_detected false 2 (by decide)).2 4 (by decide)⟩

set_option maxRecDepth 100000 in
/-- Helper: exhaustive check of the 8-bit decimal printer over all 256
values: 50 ticks after a one-tick start pulse, the emitted bytes are the
three zero-padded decimal digit characters and the system is quiescent. -/
theorem decTrace_all :
    ∀ v : Nat, v < 256 →
      (decTrace v 50).2 = decExpected v ∧
      (decTrace v 50).1.pr.fsm = DecFsm.IDLE ∧
      (decTrace v 50).1.pr.tx_rdy = false ∧
      (decTrace v 50).1.pr.start_last = false ∧
      (decTrace v 50).1.cons = 0 := by
  decide

/-- Helper: a quiescent decimal-printer system stays quiescent and emits
nothing further. -/
theorem decTrace_stable (v t : Nat) (ht : 1 ≤ t) (sn dg ch b be : Nat) (dn : Bool)
    (em : List Nat)
    (h : decTrace v t
      = ({ pr := { fsm := DecFsm.IDLE, snapshot := sn, digit := dg, char := ch,
                   base := b, baseExp := be, tx_rdy := false, done := dn,
                   start_last := false }, cons := 0 }, em)) :
    ∀ k, ∃ dn' : Bool, decTrace v (t + k)
      = ({ pr := { fsm := DecFsm.IDLE, snapshot := sn, digit := dg, char := ch,
                   base := b, baseExp := be, tx_rdy := false, done := dn',
                   start_last := false }, cons := 0 }, em) := by
  intro k
  induction k with
  | zero => exact ⟨dn, h⟩
  | succ k ih =>
      obtain ⟨dn', hk⟩ := ih
      refine ⟨false, ?_⟩
      have hnt : (decide (t + k = 0)) = false := decide_eq_false (by omega)
      have hstep : decTrace v (t + k + 1)
          = (decSysStep v (t + k) (decTrace v (t + k)).1,
             (decTrace v (t + k)).2 ++ emitNow (decTrace v (t + k)).1.cons
               (decTrace v (t + k)).1.pr.tx_rdy (decTrace v (t + k)).1.pr.char) := rfl
      have hT : (decide (t = 0)) = false := decide_eq_false (by omega)
      have hnt2 : ¬ (t = 0 ∧ k = 0) := by omega
      rw [show t + (k + 1) = t + k + 1 from rfl, hstep, hk]
      simp [decSysStep, decStep, ackStep, consAck, emitNow, hnt, hnt2, hT]

/-- C5: the 8-bit decimal printer.  For every 8-bit value, a start pulse
makes the printer emit exactly 3 = `ceil(log10(2^8))` ASCII digit
characters, most-significant digit first, the zero-padded decimal
representation of the value snapshotted at start; in particular 128 emits
the three characters of `"128"` and 0 emits those of `"000"`. -/
theorem decimal_printer_output (v m : Nat) (hv : v < 256) :
    (decTrace v (50 + m)).2 = decExpected v ∧ (decExpected v).length = 3 := by
  obtain ⟨he, hf, hr, hs, hc⟩ := decTrace_all v hv
  rcases hQ : decTrace v 50 with ⟨⟨⟨f0, sn0, dg0, ch0, b0, be0, r0, dn0, sl0⟩, c0⟩, em0⟩
  rw [hQ] at he hf hr hs hc
  dsimp only at he hf hr hs hc
  subst hf hr hs hc
  obtain ⟨dn', hk⟩ := decTrace_stable v 50 (by omega) sn0 dg0 ch0 b0 be0 dn0 em0 hQ m
  rw [hk]
  exact ⟨he, rfl⟩

/-- Witness for `decimal_printer_output` at the spec's two instances, 128
and 0. -/
theorem decimal_printer_output_witness :
    ((decTrace 128 50).2 = decExpected 128 ∧ (decExpected 128).length = 3) ∧
    ((decTrace 0 50).2 = decExpected 0 ∧ (decExpected 0).length = 3) :=
  ⟨decimal_printer_output 128 0 (by decide), decimal_printer_output 0 0 (by decide)⟩

/-- Helper: bit 0 of a right-shifted value is the shifted-to bit. -/
theorem div_pow_testBit_zero (v j : Nat) : (v / 2 ^ j).testBit 0 = v.testBit j := by
  rw [Nat.testBit_zero, Nat.testBit_to_div_mod]

/-- Helper: a start edge at tick 0 latches the snapshot and moves the binary
printer to `SEND`. -/
theorem binRun_one (W : Nat) (sig : Nat → Nat) (start : Nat → Bool)
    (hs0 : start 0 = true) :
    binRun W sig start 1
      = { pr := { fsm := BinFsm.SEND, snapshot := sig 0 % 2 ^ W, digit := 0, char := 48,
                  tx_rdy := false, done := false, start_last := true },
          cons := 0 } ∧
    binEmits W sig start 1 = [] := by
  constructor
  · have e : binRun W sig start 1 = binSysStep W sig start 0 (binRun W sig start 0) := rfl
    rw [e]
    show binSysStep W sig start 0 binReset = _
    simp [binSysStep, binStep, binReset, ackStep, consAck, hs0]
  · have e : binEmits W sig start 1
        = binEmits W sig start 0
          ++ emitNow (binRun W sig start 0).cons (binRun W sig start 0).pr.tx_rdy
              (binTxData (binRun W sig start 0).pr) := rfl
    rw [e]
    show [] ++ emitNow binReset.cons binReset.pr.tx_rdy (binTxData binReset.pr) = []
    simp [binReset, emitNow]

/-- Helper: the four ticks from `SEND` to the waiting state right before the
digit decision: one byte is latched by the consumer along the way. -/
theorem binChunk4 (W : Nat) (sig : Nat → Nat) (start : Nat → Bool)
    (hs : ∀ u, 1 ≤ u → start u = false) (t : Nat) (ht : 1 ≤ t)
    (snap j ch : Nat) (sl : Bool)
    (hst : binRun W sig start t
      = { pr := { fsm := BinFsm.SEND, snapshot := snap, digit := j, char := ch,
                  tx_rdy := false, done := false, start_last := sl }, cons := 0 }) :
    binRun W sig start (t + 4)
      = { pr := { fsm := BinFsm.WAIT_ACK_UP, snapshot := snap, digit := j,
                  char := if snap.testBit 0 then 49 else 48,
                  tx_rdy := false, done := false, start_last := false }, cons := 0 } ∧
    binEmits W sig start (t + 4)
      = binEmits W sig start t ++ [if snap.testBit 0 then 49 else 48] := by
  have e1 : binRun W sig start (t + 1) = binSysStep W sig start t (binRun W sig start t) := rfl
  have h1 : binRun W sig start (t + 1)
      = { pr := { fsm := BinFsm.WAIT_ACK_DOWN, snapshot := snap, digit := j,
                  char := if snap.testBit 0 then 49 else 48,
                  tx_rdy := true, done := false, start_last := false }, cons := 0 } := by
    rw [e1, hst]
    simp [binSysStep, binStep, ackStep, consAck, hs t ht]
  have e2 : binRun W sig start (t + 2)
      = binSysStep W sig start (t + 1) (binRun W sig start (t + 1)) := rfl
  have h2 : binRun W sig start (t + 2)
      = { pr := { fsm := BinFsm.WAIT_ACK_DOWN, snapshot := snap, digit := j,
                  char := if snap.testBit 0 then 49 else 48,
                  tx_rdy := true, done := false, start_last := false }, cons := 2 } := by
    rw [e2, h1]
    simp [binSysStep, binStep, ackStep, consAck, hs (t + 1) (by omega)]
  have e3 : binRun W sig start (t + 3)
      = binSysStep W sig start (t + 2) (binRun W sig start (t + 2)) := rfl
  have h3 : binRun W sig start (t + 3)
      = { pr := { fsm := BinFsm.WAIT_ACK_UP, snapshot := snap, digit := j,
                  char := if snap.testBit 0 then 49 else 48,
                  tx_rdy := true, done := false, start_last := false }, cons := 1 } := by
    rw [e3, h2]
    simp [binSysStep, binStep, ackStep, consAck, hs (t + 2) (by omega)]
  have e4 : binRun W sig start (t + 4)
      = binSysStep W sig start (t + 3) (binRun W sig start (t + 3)) := rfl
  have h4 : binRun W sig start (t + 4)
      = { pr := { fsm := BinFsm.WAIT_ACK_UP, snapshot := snap, digit := j,
                  char := if snap.testBit 0 then 49 else 48,
                  tx_rdy := false, done := false, start_last := false }, cons := 0 } := by
    rw [e4, h3]
    simp [binSysStep, binStep, ackStep, consAck, hs (t + 3) (by omega)]
  refine ⟨h4, ?_⟩
  have f1 : binEmits W sig start (t + 1)
      = binEmits W sig start t
        ++ emitNow (binRun W sig start t).cons (binRun W sig start t).pr.tx_rdy
            (binTxData (binRun W sig start t).pr) := rfl
  have f2 : binEmits W sig start (t + 2)
      = binEmits W sig start (t + 1)
        ++ emitNow (binRun W sig start (t + 1)).cons (binRun W sig start (t + 1)).pr.tx_rdy
            (binTxData (binRun W sig start (t + 1)).pr) := rfl
  have f3 : binEmits W sig start (t + 3)
      = binEmits W sig start (t + 2)
        ++ emitNow (binRun W sig start (t + 2)).cons (binRun W sig start (t + 2)).pr.tx_rdy
            (binTxData (binRun W sig start (t + 2)).pr) := rfl
  have f4 : binEmits W sig start (t + 4)
      = binEmits W sig start (t + 3)
        ++ emitNow (binRun W sig start (t + 3)).cons (binRun W sig start (t + 3)).pr.tx_rdy
            (binTxData (binRun W sig start (t + 3)).pr) := rfl
  rw [f4, h3, f3, h2, f2, h1, f1, hst]
  simp [emitNow, binTxData]

/-- Helper: the digit decision when more digits remain: shift the snapshot
right and return to `SEND`. -/
theorem binStep_continue (W : Nat) (sig : Nat → Nat) (start : Nat → Bool)
    (hs : ∀ u, 1 ≤ u → start u = false) (t : Nat) (ht : 1 ≤ t)
    (snap j ch : Nat) (hj : j < W - 1)
    (hst : binRun W sig start t
      = { pr := { fsm := BinFsm.WAIT_ACK_UP, snapshot := snap, digit := j, char := ch,
                  tx_rdy := false, done := false, start_last := false }, cons := 0 }) :
    binRun W sig start (t + 1)
      = { pr := { fsm := BinFsm.SEND, snapshot := snap / 2, digit := j + 1, char := ch,
                  tx_rdy := false, done := false, start_last := false }, cons := 0 } ∧
    binEmits W sig start (t + 1) = binEmits W sig start t := by
  constructor
  · have e : binRun W sig start (t + 1) = binSysStep W sig start t (binRun W sig start t) := rfl
    rw [e, hst]
    simp [binSysStep, binStep, ackStep, consAck, hs t ht, hj]
  · have f : binEmits W sig start (t + 1)
        = binEmits W sig start t
          ++ emitNow (binRun W sig start t).cons (binRun W sig start t).pr.tx_rdy
              (binTxData (binRun W sig start t).pr) := rfl
    rw [f, hst]
    simp [emitNow]

/-- Helper: the digit decision on the last digit: pulse `done` and return to
`IDLE`. -/
theorem binStep_last (W : Nat) (sig : Nat → Nat) (start : Nat → Bool)
    (hs : ∀ u, 1 ≤ u → start u = false) (t : Nat) (ht : 1 ≤ t)
    (snap j ch : Nat) (hj : ¬ j < W - 1)
    (hst : binRun W sig start t
      = { pr := { fsm := BinFsm.WAIT_ACK_UP, snapshot := snap, digit := j, char := ch,
                  tx_rdy := false, done := false, start_last := false }, cons := 0 }) :
    binRun W sig start (t + 1)
      = { pr := { fsm := BinFsm.IDLE, snapshot := snap, digit := j, char := ch,
                  tx_rdy := false, done := true, start_last := false }, cons := 0 } ∧
    binEmits W sig start (t + 1) = binEmits W sig start t := by
  constructor
  · have e : binRun W sig start (t + 1) = binSysStep W sig start t (binRun W sig start t) := rfl
    rw [e, hst]
    simp [binSysStep, binStep, ackStep, consAck, hs t ht, hj]
  · have f : binEmits W sig start (t + 1)
        = binEmits W sig start t
          ++ emitNow (binRun W sig start t).cons (binRun W sig start t).pr.tx_rdy
              (binTxData (binRun W sig start t).pr) := rfl
    rw [f, hst]
    simp [emitNow]

/-- Helper: an idle binary-printer system stays idle and emits nothing
further. -/
theorem binStable (W : Nat) (sig : Nat → Nat) (start : Nat → Bool)
    (hs : ∀ u, 1 ≤ u → start u = false) (t : Nat) (ht : 1 ≤ t)
    (snap j ch : Nat) (dn : Bool)
    (hst : binRun W sig start t
      = { pr := { fsm := BinFsm.IDLE, snapshot := snap, digit := j, char := ch,
                  tx_rdy := false, done := dn, start_last := false }, cons := 0 }) :
    ∀ k, ∃ dn' : Bool, binRun W sig start (t + k)
        = { pr := { fsm := BinFsm.IDLE, snapshot := snap, digit := j, char := ch,
                    tx_rdy := false, done := dn', start_last := false }, cons := 0 } ∧
      binEmits W sig start (t + k) = binEmits W sig start t := by
  intro k
  induction k with
  | zero => exact ⟨dn, hst, rfl⟩
  | succ k ih =>
      obtain ⟨dn', hk, he⟩ := ih
      refine ⟨false, ?_, ?_⟩
      · have e : binRun W sig start (t + k + 1)
            = binSysStep W sig start (t + k) (binRun W sig start (t + k)) := rfl
        rw [show t + (k + 1) = t + k + 1 from rfl, e, hk]
        simp [binSysStep, binStep, ackStep, consAck, hs (t + k) (by omega)]
      · have f : binEmits W sig start (t + k + 1)
            = binEmits W sig start (t + k)
              ++ emitNow (binRun W sig start (t + k)).cons (binRun W sig start (t + k)).pr.tx_rdy
                  (binTxData (binRun W sig start (t + k)).pr) := rfl
        rw [show t + (k + 1) = t + k + 1 from rfl, f, hk, he]
        simp [emitNow]

/-- Helper: after `j` full digit loops the binary printer is back in `SEND`
with the snapshot shifted `j` times and the first `j` characters emitted. -/
theorem binLoop (W : Nat) (sig : Nat → Nat) (start : Nat → Bool)
    (hs0 : start 0 = true) (hs : ∀ u, 1 ≤ u → start u = false) :
    ∀ j, j < W →
      ∃ ch : Nat, ∃ sl : Bool, binRun W sig start (1 + 5 * j)
        = { pr := { fsm := BinFsm.SEND, snapshot := sig 0 % 2 ^ W / 2 ^ j, digit := j,
                    char := ch, tx_rdy := false, done := false, start_last := sl },
            cons := 0 } ∧
      binEmits W sig start (1 + 5 * j)
        = (List.range j).map fun i => if (sig 0 % 2 ^ W).testBit i then 49 else 48 := by
  intro j
  induction j with
  | zero =>
      intro hj
      obtain ⟨h1, he1⟩ := binRun_one W sig start hs0
      refine ⟨48, true, ?_, ?_⟩
      · show binRun W sig start 1 = _
        rw [h1]
        norm_num
      · show binEmits W sig start 1 = _
        rw [he1]
        simp
  | succ j ih =>
      intro hj
      obtain ⟨ch, sl, hst, he⟩ := ih (by omega)
      obtain ⟨h4, he4⟩ := binChunk4 W sig start hs (1 + 5 * j) (by omega)
        (sig 0 % 2 ^ W / 2 ^ j) j ch sl hst
      obtain ⟨h5, he5⟩ := binStep_continue W sig start hs (1 + 5 * j + 4) (by omega)
        (sig 0 % 2 ^ W / 2 ^ j) j _ (by omega) h4
      refine ⟨if (sig 0 % 2 ^ W / 2 ^ j).testBit 0 then 49 else 48, false, ?_, ?_⟩
      · rw [show 1 + 5 * (j + 1) = 1 + 5 * j + 4 + 1 by omega, h5,
            Nat.div_div_eq_div_mul, ← pow_succ]
      · rw [show 1 + 5 * (j + 1) = 1 + 5 * j + 4 + 1 by omega, he5, he4, he,
            div_pow_testBit_zero, List.range_succ]
        simp

/-- C6: the binary printer.  For every width `W ≥ 1` and every (possibly
time-varying) source signal, a start pulse makes `BinarySignalPrinter` emit
exactly `W` ASCII `'0'`/`'1'` characters, least-significant bit first, of
the snapshot of the signal taken at the start tick — later signal changes
cannot affect the output, which depends only on `sig 0`.  In particular the
5-bit value `0b10101` prints as the literal string `"10101"`. -/
theorem binary_printer_output (W : Nat) (hW : 1 ≤ W) (sig : Nat → Nat)
    (start : Nat → Bool) (hs0 : start 0 = true) (hs : ∀ u, 1 ≤ u → start u = false)
    (m : Nat) :
    binEmits W sig start (5 * W + 1 + m) = bitsLSB (sig 0 % 2 ^ W) W ∧
    (bitsLSB (sig 0 % 2 ^ W) W).length = W := by
  obtain ⟨ch, sl, hst, he⟩ := binLoop W sig start hs0 hs (W - 1) (by omega)
  obtain ⟨h4, he4⟩ := binChunk4 W sig start hs (1 + 5 * (W - 1)) (by omega)
    (sig 0 % 2 ^ W / 2 ^ (W - 1)) (W - 1) ch sl hst
  obtain ⟨h5, he5⟩ := binStep_last W sig start hs (1 + 5 * (W - 1) + 4) (by omega)
    (sig 0 % 2 ^ W / 2 ^ (W - 1)) (W - 1) _ (by omega) h4
  have hfull : binEmits W sig start (1 + 5 * (W - 1) + 4 + 1) = bitsLSB (sig 0 % 2 ^ W) W := by
    rw [he5, he4, he, div_pow_testBit_zero]
    rw [bitsLSB, show W = (W - 1) + 1 by omega, List.range_succ]
    simp
  obtain ⟨dn', hk, hek⟩ := binStable W sig start hs (1 + 5 * (W - 1) + 4 + 1) (by omega)
    (sig 0 % 2 ^ W / 2 ^ (W - 1)) (W - 1) _ true h5 m
  constructor
  · rw [show 5 * W + 1 + m = 1 + 5 * (W - 1) + 4 + 1 + m by omega, hek, hfull]
  · simp [bitsLSB]

/-- Witness for `binary_printer_output`: the 5-bit value `0b10101 = 21`
prints as the characters of `"10101"`. -/
theorem binary_printer_output_witness :
    binEmits 5 (fun _ => 21) (fun u => decide (u = 0)) (5 * 5 + 1 + 0)
        = bitsLSB (21 % 2 ^ 5) 5 ∧
      (bitsLSB (21 % 2 ^ 5) 5).length = 5 :=
  binary_printer_output 5 (by decide) (fun _ => 21) (fun u => decide (u = 0))
    (by decide) (fun u hu => decide_eq_false (by omega)) 0

/-- Helper: a start edge at tick 0 moves the text printer to `FETCH`. -/
theorem textRun_one (mem : List Nat) (L : Nat) (start : Nat → Bool)
    (hs0 : start 0 = true) :
    textRun mem L start 1
      = { pr := { fsm := TextFsm.FETCH, print_newline := false, m_idx := 0,
                  tx_rdy := false, done := false, start_last := true,
                  r_data := mem.getD 0 0 }, cons := 0 } ∧
    textEmits mem L start 1 = [] := by
  constructor
  · have e : textRun mem L start 1 = textSysStep mem L start 0 (textRun mem L start 0) := rfl
    rw [e]
    show textSysStep mem L start 0 textReset = _
    simp [textSysStep, textStep, textReset, ackStep, consAck, hs0]
  · have e : textEmits mem L start 1
        = textEmits mem L start 0
          ++ emitNow (textRun mem L start 0).cons (textRun mem L start 0).pr.tx_rdy
              (textTxData (textRun mem L start 0).pr) := rfl
    rw [e]
    show [] ++ emitNow textReset.cons textReset.pr.tx_rdy (textTxData textReset.pr) = []
    simp [textReset, emitNow, textTxData]

/-- Helper: five ticks from `FETCH` on a non-zero byte: the byte is fetched,
offered and latched by the consumer, ending in the waiting state before the
index decision. -/
theorem textChunk5 (mem : List Nat) (L : Nat) (start : Nat → Bool)
    (hs : ∀ u, 1 ≤ u → start u = false) (t : Nat) (ht : 1 ≤ t)
    (i rd : Nat) (sl : Bool) (hb : mem.getD i 0 ≠ 0)
    (hst : textRun mem L start t
      = { pr := { fsm := TextFsm.FETCH, print_newline := false, m_idx := i,
                  tx_rdy := false, done := false, start_last := sl, r_data := rd },
          cons := 0 }) :
    textRun mem L start (t + 5)
      = { pr := { fsm := TextFsm.WAIT_ACK_UP, print_newline := false, m_idx := i,
                  tx_rdy := false, done := false, start_last := false,
                  r_data := mem.getD i 0 }, cons := 0 } ∧
    textEmits mem L start (t + 5) = textEmits mem L start t ++ [mem.getD i 0] := by
  have hbq : ¬ mem[i]?.getD 0 = 0 := by simpa using hb
  have h1 : textRun mem L start (t + 1)
      = { pr := { fsm := TextFsm.SEND, print_newline := false, m_idx := i,
                  tx_rdy := false, done := false, start_last := false,
                  r_data := mem.getD i 0 }, cons := 0 } := by
    rw [show textRun mem L start (t + 1) = textSysStep mem L start t (textRun mem L start t)
        from rfl, hst]
    simp [textSysStep, textStep, ackStep, consAck, hs t ht]
  have h2 : textRun mem L start (t + 2)
      = { pr := { fsm := TextFsm.WAIT_ACK_DOWN, print_newline := false, m_idx := i,
                  tx_rdy := true, done := false, start_last := false,
                  r_data := mem.getD i 0 }, cons := 0 } := by
    rw [show textRun mem L start (t + 2)
        = textSysStep mem L start (t + 1) (textRun mem L start (t + 1)) from rfl, h1]
    simp [textSysStep, textStep, textTxData, ackStep, consAck, hs (t + 1) (by omega), hbq]
  have h3 : textRun mem L start (t + 3)
      = { pr := { fsm := TextFsm.WAIT_ACK_DOWN, print_newline := false, m_idx := i,
                  tx_rdy := true, done := false, start_last := false,
                  r_data := mem.getD i 0 }, cons := 2 } := by
    rw [show textRun mem L start (t + 3)
        = textSysStep mem L start (t + 2) (textRun mem L start (t + 2)) from rfl, h2]
    simp [textSysStep, textStep, ackStep, consAck, hs (t + 2) (by omega)]
  have h4 : textRun mem L start (t + 4)
      = { pr := { fsm := TextFsm.WAIT_ACK_UP, print_newline := false, m_idx := i,
                  tx_rdy := true, done := false, start_last := false,
                  r_data := mem.getD i 0 }, cons := 1 } := by
    rw [show textRun mem L start (t + 4)
        = textSysStep mem L start (t + 3) (textRun mem L start (t + 3)) from rfl, h3]
    simp [textSysStep, textStep, ackStep, consAck, hs (t + 3) (by omega)]
  have h5 : textRun mem L start (t + 5)
      = { pr := { fsm := TextFsm.WAIT_ACK_UP, print_newline := false, m_idx := i,
                  tx_rdy := false, done := false, start_last := false,
                  r_data := mem.getD i 0 }, cons := 0 } := by
    rw [show textRun mem L start (t + 5)
        = textSysStep mem L start (t + 4) (textRun mem L start (t + 4)) from rfl, h4]
    simp [textSysStep, textStep, ackStep, consAck, hs (t + 4) (by omega)]
  refine ⟨h5, ?_⟩
  have f1 : textEmits mem L start (t + 1)
      = textEmits mem L start t
        ++ emitNow (textRun mem L start t).cons (textRun mem L start t).pr.tx_rdy
            (textTxData (textRun mem L start t).pr) := rfl
  have f2 : textEmits mem L start (t + 2)
      = textEmits mem L start (t + 1)
        ++ emitNow (textRun mem L start (t + 1)).cons (textRun mem L start (t + 1)).pr.tx_rdy
            (textTxData (textRun mem L start (t + 1)).pr) := rfl
  have f3 : textEmits mem L start (t + 3)
      = textEmits mem L start (t + 2)
        ++ emitNow (textRun mem L start (t + 2)).cons (textRun mem L start (t + 2)).pr.tx_rdy
            (textTxData (textRun mem L start (t + 2)).pr) := rfl
  have f4 : textEmits mem L start (t + 4)
      = textEmits mem L start (t + 3)
        ++ emitNow (textRun mem L start (t + 3)).cons (textRun mem L start (t + 3)).pr.tx_rdy
            (textTxData (textRun mem L start (t + 3)).pr) := rfl
  have f5 : textEmits mem L start (t + 5)
      = textEmits mem L start (t + 4)
        ++ emitNow (textRun mem L start (t + 4)).cons (textRun mem L start (t + 4)).pr.tx_rdy
            (textTxData (textRun mem L start (t + 4)).pr) := rfl
  rw [f5, h4, f4, h3, f3, h2, f2, h1, f1, hst]
  simp [emitNow, textTxData]

/-- Helper: the index decision when more bytes remain: advance `m_idx` and
go back to `FETCH`. -/
theorem textStep_nextByte (mem : List Nat) (L : Nat) (start : Nat → Bool)
    (hs : ∀ u, 1 ≤ u → start u = false) (t : Nat) (ht : 1 ≤ t)
    (i rd : Nat) (hlast : ¬ i = L - 1)
    (hst : textRun mem L start t
      = { pr := { fsm := TextFsm.WAIT_ACK_UP, print_newline := false, m_idx := i,
                  tx_rdy := false, done := false, start_last := false, r_data := rd },
          cons := 0 }) :
    textRun mem L start (t + 1)
      = { pr := { fsm := TextFsm.FETCH, print_newline := false, m_idx := i + 1,
                  tx_rdy := false, done := false, start_last := false,
                  r_data := mem.getD i 0 }, cons := 0 } ∧
    textEmits mem L start (t + 1) = textEmits mem L start t := by
  constructor
  · rw [show textRun mem L start (t + 1) = textSysStep mem L start t (textRun mem L start t)
        from rfl, hst]
    simp [textSysStep, textStep, ackStep, consAck, hs t ht, hlast]
  · rw [show textEmits mem L start (t + 1)
        = textEmits mem L start t
          ++ emitNow (textRun mem L start t).cons (textRun mem L start t).pr.tx_rdy
              (textTxData (textRun mem L start t).pr) from rfl, hst]
    simp [emitNow]

/-- Helper: the index decision on the last byte: pulse `done`, clear the
index and return to `IDLE`. -/
theorem textStep_lastByte (mem : List Nat) (L : Nat) (start : Nat → Bool)
    (hs : ∀ u, 1 ≤ u → start u = false) (t : Nat) (ht : 1 ≤ t)
    (i rd : Nat) (pn : Bool) (hdone : pn = true ∨ i = L - 1)
    (hst : textRun mem L start t
      = { pr := { fsm := TextFsm.WAIT_ACK_UP, print_newline := pn, m_idx := i,
                  tx_rdy := false, done := false, start_last := false, r_data := rd },
          cons := 0 }) :
    textRun mem L start (t + 1)
      = { pr := { fsm := TextFsm.IDLE, print_newline := pn, m_idx := 0,
                  tx_rdy := false, done := true, start_last := false,
                  r_data := mem.getD i 0 }, cons := 0 } ∧
    textEmits mem L start (t + 1) = textEmits mem L start t := by
  constructor
  · rw [show textRun mem L start (t + 1) = textSysStep mem L start t (textRun mem L start t)
        from rfl, hst]
    have hcond : (pn || decide (i = L - 1)) = true := by
      rcases hdone with h | h
      · simp [h]
      · simp [h]
    simp [textSysStep, textStep, ackStep, consAck, hs t ht, hcond]
  · rw [show textEmits mem L start (t + 1)
        = textEmits mem L start t
          ++ emitNow (textRun mem L start t).cons (textRun mem L start t).pr.tx_rdy
              (textTxData (textRun mem L start t).pr) from rfl, hst]
    simp [emitNow]

/-- Helper: seven ticks from `FETCH` on a zero byte: the terminator is
detected, the newline is offered and latched instead, and the printer is
ready to finish with `print_newline` set. -/
theorem textChunkZero (mem : List Nat) (L : Nat) (start : Nat → Bool)
    (hs : ∀ u, 1 ≤ u → start u = false) (t : Nat) (ht : 1 ≤ t)
    (i rd : Nat) (sl : Bool) (hb : mem.getD i 0 = 0)
    (hst : textRun mem L start t
      = { pr := { fsm := TextFsm.FETCH, print_newline := false, m_idx := i,
                  tx_rdy := false, done := false, start_last := sl, r_data := rd },
          cons := 0 }) :
    textRun mem L start (t + 6)
      = { pr := { fsm := TextFsm.WAIT_ACK_UP, print_newline := true, m_idx := i,
                  tx_rdy := false, done := false, start_last := false,
                  r_data := 0 }, cons := 0 } ∧
    textEmits mem L start (t + 6) = textEmits mem L start t ++ [10] := by
  have hbq : mem[i]?.getD 0 = 0 := by simpa using hb
  have h1 : textRun mem L start (t + 1)
      = { pr := { fsm := TextFsm.SEND, print_newline := false, m_idx := i,
                  tx_rdy := false, done := false, start_last := false,
                  r_data := 0 }, cons := 0 } := by
    rw [show textRun mem L start (t + 1) = textSysStep mem L start t (textRun mem L start t)
        from rfl, hst]
    simp [textSysStep, textStep, ackStep, consAck, hs t ht, hbq]
  have h2 : textRun mem L start (t + 2)
      = { pr := { fsm := TextFsm.SEND, print_newline := true, m_idx := i,
                  tx_rdy := false, done := false, start_last := false,
                  r_data := 0 }, cons := 0 } := by
    rw [show textRun mem L start (t + 2)
        = textSysStep mem L start (t + 1) (textRun mem L start (t + 1)) from rfl, h1]
    simp [textSysStep, textStep, textTxData, ackStep, consAck, hs (t + 1) (by omega), hbq]
  have h3 : textRun mem L start (t + 3)
      = { pr := { fsm := TextFsm.WAIT_ACK_DOWN, print_newline := true, m_idx := i,
                  tx_rdy := true, done := false, start_last := false,
                  r_data := 0 }, cons := 0 } := by
    rw [show textRun mem L start (t + 3)
        = textSysStep mem L start (t + 2) (textRun mem L start (t + 2)) from rfl, h2]
    simp [textSysStep, textStep, textTxData, ackStep, consAck, hs (t + 2) (by omega), hbq]
  have h4 : textRun mem L start (t + 4)
      = { pr := { fsm := TextFsm.WAIT_ACK_DOWN, print_newline := true, m_idx := i,
                  tx_rdy := true, done := false, start_last := false,
                  r_data := 0 }, cons := 2 } := by
    rw [show textRun mem L start (t + 4)
        = textSysStep mem L start (t + 3) (textRun mem L start (t + 3)) from rfl, h3]
    simp [textSysStep, textStep, ackStep, consAck, hs (t + 3) (by omega), hbq]
  have h5 : textRun mem L start (t + 5)
      = { pr := { fsm := TextFsm.WAIT_ACK_UP, print_newline := true, m_idx := i,
                  tx_rdy := true, done := false, start_last := false,
                  r_data := 0 }, cons := 1 } := by
    rw [show textRun mem L start (t + 5)
        = textSysStep mem L start (t + 4) (textRun mem L start (t + 4)) from rfl, h4]
    simp [textSysStep, textStep, ackStep, consAck, hs (t + 4) (by omega), hbq]
  have h6 : textRun mem L start (t + 6)
      = { pr := { fsm := TextFsm.WAIT_ACK_UP, print_newline := true, m_idx := i,
                  tx_rdy := false, done := false, start_last := false,
                  r_data := 0 }, cons := 0 } := by
    rw [show textRun mem L start (t + 6)
        = textSysStep mem L start (t + 5) (textRun mem L start (t + 5)) from rfl, h5]
    simp [textSysStep, textStep, ackStep, consAck, hs (t + 5) (by omega), hbq]
  refine ⟨h6, ?_⟩
  have f1 : textEmits mem L start (t + 1)
      = textEmits mem L start t
        ++ emitNow (textRun mem L start t).cons (textRun mem L start t).pr.tx_rdy
            (textTxData (textRun mem L start t).pr) := rfl
  have f2 : textEmits mem L start (t + 2)
      = textEmits mem L start (t + 1)
        ++ emitNow (textRun mem L start (t + 1)).cons (textRun mem L start (t + 1)).pr.tx_rdy
            (textTxData (textRun mem L start (t + 1)).pr) := rfl
  have f3 : textEmits mem L start (t + 3)
      = textEmits mem L start (t + 2)
        ++ emitNow (textRun mem L start (t + 2)).cons (textRun mem L start (t + 2)).pr.tx_rdy
            (textTxData (textRun mem L start (t + 2)).pr) := rfl
  have f4 : textEmits mem L start (t + 4)
      = textEmits mem L start (t + 3)
        ++ emitNow (textRun mem L start (t + 3)).cons (textRun mem L start (t + 3)).pr.tx_rdy
            (textTxData (textRun mem L start (t + 3)).pr) := rfl
  have f5 : textEmits mem L start (t + 5)
      = textEmits mem L start (t + 4)
        ++ emitNow (textRun mem L start (t + 4)).cons (textRun mem L start (t + 4)).pr.tx_rdy
            (textTxData (textRun mem L start (t + 4)).pr) := rfl
  have f6 : textEmits mem L start (t + 6)
      = textEmits mem L start (t + 5)
        ++ emitNow (textRun mem L start (t + 5)).cons (textRun mem L start (t + 5)).pr.tx_rdy
            (textTxData (textRun mem L start (t + 5)).pr) := rfl
  rw [f6, h5, f5, h4, f4, h3, f3, h2, f2, h1, f1, hst]
  simp [emitNow, textTxData]

/-- Helper: an idle text-printer system stays idle and emits nothing
further. -/
theorem textStable (mem : List Nat) (L : Nat) (start : Nat → Bool)
    (hs : ∀ u, 1 ≤ u → start u = false) (t : Nat) (ht : 1 ≤ t)
    (i0 rd0 : Nat) (pn0 dn0 : Bool)
    (hst : textRun mem L start t
      = { pr := { fsm := TextFsm.IDLE, print_newline := pn0, m_idx := i0,
                  tx_rdy := false, done := dn0, start_last := false, r_data := rd0 },
          cons := 0 }) :
    ∀ k, ∃ pn' dn' : Bool, ∃ rd' : Nat, textRun mem L start (t + k)
        = { pr := { fsm := TextFsm.IDLE, print_newline := pn', m_idx := i0,
                    tx_rdy := false, done := dn', start_last := false, r_data := rd' },
            cons := 0 } ∧
      textEmits mem L start (t + k) = textEmits mem L start t := by
  intro k
  induction k with
  | zero => exact ⟨pn0, dn0, rd0, hst, rfl⟩
  | succ k ih =>
      obtain ⟨pn', dn', rd', hk, he⟩ := ih
      refine ⟨false, false, mem.getD i0 0, ?_, ?_⟩
      · rw [show t + (k + 1) = t + k + 1 from rfl,
            show textRun mem L start (t + k + 1)
              = textSysStep mem L start (t + k) (textRun mem L start (t + k)) from rfl, hk]
        simp [textSysStep, textStep, ackStep, consAck, hs (t + k) (by omega)]
      · rw [show t + (k + 1) = t + k + 1 from rfl,
            show textEmits mem L start (t + k + 1)
              = textEmits mem L start (t + k)
                ++ emitNow (textRun mem L start (t + k)).cons
                    (textRun mem L start (t + k)).pr.tx_rdy
                    (textTxData (textRun mem L start (t + k)).pr) from rfl, hk, he]
        simp [emitNow]

/-- Helper: walking the memory from index `i`: the printer streams the
remaining bytes with C-string termination and reaches `IDLE` with `done`
pulsed by tick `6 L + 3`. -/
theorem textWalk (mem : List Nat) (start : Nat → Bool)
    (hs : ∀ u, 1 ≤ u → start u = false) :
    ∀ k i : Nat, ∀ sl : Bool, ∀ rd : Nat, ∀ acc : List Nat,
      i < mem.length → mem.length - i = k →
      textRun mem mem.length start (1 + 6 * i)
        = { pr := { fsm := TextFsm.FETCH, print_newline := false, m_idx := i,
                    tx_rdy := false, done := false, start_last := sl, r_data := rd },
            cons := 0 } →
      textEmits mem mem.length start (1 + 6 * i) = acc →
      ∃ te : Nat, ∃ pn' : Bool, ∃ rd' : Nat,
        1 ≤ te ∧ te ≤ 6 * mem.length + 3 ∧
        textRun mem mem.length start te
          = { pr := { fsm := TextFsm.IDLE, print_newline := pn', m_idx := 0,
                      tx_rdy := false, done := true, start_last := false, r_data := rd' },
              cons := 0 } ∧
        textEmits mem mem.length start te = acc ++ textExpected (mem.drop i) := by
  intro k
  induction k with
  | zero =>
      intro i sl rd acc hi hk
      omega
  | succ k ih =>
      intro i sl rd acc hi hk hrun hem
      have hdrop : mem.drop i = mem.getD i 0 :: mem.drop (i + 1) := by
        rw [List.getD_eq_getElem _ _ hi]
        exact List.drop_eq_getElem_cons hi
      by_cases hb : mem.getD i 0 = 0
      · obtain ⟨h6, he6⟩ := textChunkZero mem mem.length start hs (1 + 6 * i) (by omega)
          i rd sl hb hrun
        obtain ⟨h7, he7⟩ := textStep_lastByte mem mem.length start hs (1 + 6 * i + 6)
          (by omega) i 0 true (Or.inl rfl) h6
        refine ⟨1 + 6 * i + 6 + 1, true, mem.getD i 0, by omega, by omega, h7, ?_⟩
        rw [he7, he6, hem, hdrop, textExpected]
        have hbq : mem[i]?.getD 0 = 0 := by simpa using hb
        simp [hbq]
      · obtain ⟨h5, he5⟩ := textChunk5 mem mem.length start hs (1 + 6 * i) (by omega)
          i rd sl hb hrun
        by_cases hlast : i = mem.length - 1
        · obtain ⟨h6, he6⟩ := textStep_lastByte mem mem.length start hs (1 + 6 * i + 5)
            (by omega) i (mem.getD i 0) false (Or.inr hlast) h5
          refine ⟨1 + 6 * i + 5 + 1, false, mem.getD i 0, by omega, by omega, h6, ?_⟩
          rw [he6, he5, hem, hdrop, textExpected]
          have hnil : mem.drop (i + 1) = [] := by
            apply List.drop_eq_nil_of_le
            omega
          rw [hnil]
          have hbq : ¬ mem[i]?.getD 0 = 0 := by simpa using hb
          simp [hbq, textExpected]
        · obtain ⟨h6, he6⟩ := textStep_nextByte mem mem.length start hs (1 + 6 * i + 5)
            (by omega) i (mem.getD i 0) hlast h5
          have harith : 1 + 6 * i + 5 + 1 = 1 + 6 * (i + 1) := by omega
          rw [harith] at h6 he6
          obtain ⟨te, pn', rd', hte1, hte, hrun', hem'⟩ := ih (i + 1) false (mem.getD i 0)
            (acc ++ [mem.getD i 0]) (by omega) (by omega) h6 (by rw [he6, he5, hem])
          refine ⟨te, pn', rd', hte1, hte, hrun', ?_⟩
          rw [hem', hdrop, textExpected]
          have hbq : ¬ mem[i]?.getD 0 = 0 := by simpa using hb
          simp [hbq]

/-- C7: the text printer.  For every memory region (8-bit words) of length
`≥ 1`, a start pulse makes `TextMemoryPrinter` stream the bytes of
`mem[0..length)` in address order, stopping at the first zero byte and
emitting a newline byte (10) in its place; with no zero byte it streams the
full region and appends nothing.  The memory itself is a pure value in this
model and is never written. -/
theorem text_printer_output (mem : List Nat) (hL : 1 ≤ mem.length)
    (hbytes : ∀ b ∈ mem, b < 256) (start : Nat → Bool)
    (hs0 : start 0 = true) (hs : ∀ u, 1 ≤ u → start u = false) (m : Nat) :
    textEmits mem mem.length start (6 * mem.length + 3 + m) = textExpected mem := by
  obtain ⟨h1, he1⟩ := textRun_one mem mem.length start hs0
  obtain ⟨te, pn', rd', hte1, hte, hrun, hem⟩ := textWalk mem start hs mem.length 0 true
    (mem.getD 0 0) [] (by omega) (by omega) (by simpa using h1) (by simpa using he1)
  obtain ⟨pn'', dn'', rd'', hk, hek⟩ := textStable mem mem.length start hs te
    (by omega) 0 rd' pn' true hrun (6 * mem.length + 3 + m - te)
  rw [show 6 * mem.length + 3 + m = te + (6 * mem.length + 3 + m - te) by omega, hek, hem]
  simp

/-- Witness for `text_printer_output`: the memory holding `"Hello World\0"`
(length 12) prints the bytes of `"Hello World\n"`. -/
theorem text_printer_output_witness :
    textEmits [72, 101, 108, 108, 111, 32, 87, 111, 114, 108, 100, 0] 12
        (fun u => decide (u = 0)) (6 * 12 + 3 + 0)
      = textExpected [72, 101, 108, 108, 111, 32, 87, 111, 114, 108, 100, 0] ∧
    textExpected [72, 101, 108, 108, 111, 32, 87, 111, 114, 108, 100, 0]
      = [72, 101, 108, 108, 111, 32, 87, 111, 114, 108, 100, 10] := by
  constructor
  · exact text_printer_output [72, 101, 108, 108, 111, 32, 87, 111, 114, 108, 100, 0]
      (by decide) (by decide) (fun u => decide (u = 0)) (by decide)
      (fun u hu => decide_eq_false (by omega)) 0
  · decide

end Theorems
